import Mathlib

set_option maxHeartbeats 1600000

/-!
Formal model of the task-agent subsystem of this repository
(`packages/core/src/core/task-agent-runner.ts`, `agent-handler.ts`,
`packages/core/src/tools/task-agent-tool.ts`, `return-from-task-tool.ts`).

The control protocol of the subsystem is carried as JSON text inside tool
result payloads (`JSON.stringify` on encode, `JSON.parse` plus a `type`
discriminant check on decode), so the development starts with an executable
model of the JavaScript JSON value space and of `JSON.parse` /
`JSON.stringify`. The model covers the grammar the payloads use: null,
booleans, integer numbers (the payload numbers are JavaScript safe
integers; fractional and exponent forms are rejected by the model parser,
which only matters for inputs that no encoder produces and that decode to
"absent" either way), strings with the escape forms `JSON.stringify`
emits and `JSON.parse` accepts, arrays and objects. `Jv.jundef` models
the JavaScript value `undefined`: the parser never yields it, property
access on a missing key does.
-/

/-- A JavaScript value as the task-agent codec sees one: the result space of
`JSON.parse`, extended with `jundef` for `undefined` (missing property). -/
inductive Jv where
  | jundef : Jv
  | jnull : Jv
  | jbool (b : Bool) : Jv
  | jnum (n : Int) : Jv
  | jstr (s : String) : Jv
  | jarr (xs : List Jv) : Jv
  | jobj (fs : List (String × Jv)) : Jv


/-- Is a value defined (not the JavaScript `undefined`)? `JSON.stringify`
drops object members whose value is undefined. -/
def Jv.isDefined : Jv → Bool
  | .jundef => false
  | _ => true

/-- Left brace, via its escape so no brace character appears literally. -/
def braceL : Char := '\x7b'

/-- Right brace, via its escape. -/
def braceR : Char := '\x7d'

/-- JSON insignificant whitespace. -/
def isWsChar (c : Char) : Bool := c = ' ' || c = '\t' || c = '\n' || c = '\r'

/-- ASCII decimal digit. -/
def isDigitChar (c : Char) : Bool := '0' ≤ c && c ≤ '9'

/-- Drop leading JSON whitespace. -/
def skipWs : List Char → List Char
  | [] => []
  | c :: cs => if isWsChar c then skipWs cs else c :: cs

/-- Numeric value of one hexadecimal digit. -/
def hexDigitVal (c : Char) : Option Nat :=
  if '0' ≤ c && c ≤ '9' then some (c.toNat - 48)
  else if 'a' ≤ c && c ≤ 'f' then some (c.toNat - 97 + 10)
  else if 'A' ≤ c && c ≤ 'F' then some (c.toNat - 65 + 10)
  else none

/-- The hexadecimal digit character for `n < 16`, lower case as
`JSON.stringify` emits it. -/
def hexDigitChar (n : Nat) : Char :=
  if n < 10 then Char.ofNat (48 + n) else Char.ofNat (97 + (n - 10))

/-- The short escapes `JSON.parse` accepts after a backslash. -/
def shortEscape (c : Char) : Option Char :=
  if c = '"' then some '"'
  else if c = '\\' then some '\\'
  else if c = '/' then some '/'
  else if c = 'n' then some '\n'
  else if c = 'r' then some '\r'
  else if c = 't' then some '\t'
  else if c = 'b' then some (Char.ofNat 8)
  else if c = 'f' then some (Char.ofNat 12)
  else none

/-- JSON-escape one character the way `JSON.stringify` does: quote,
backslash and the named control characters get two-character escapes,
remaining control characters get `\u00xx`, everything else is literal. -/
def escChars (c : Char) : List Char :=
  if c = '"' then ['\\', '"']
  else if c = '\\' then ['\\', '\\']
  else if c = '\n' then ['\\', 'n']
  else if c = '\r' then ['\\', 'r']
  else if c = '\t' then ['\\', 't']
  else if c = Char.ofNat 8 then ['\\', 'b']
  else if c = Char.ofNat 12 then ['\\', 'f']
  else if c.toNat < 32 then
    ['\\', 'u', '0', '0', hexDigitChar (c.toNat / 16), hexDigitChar (c.toNat % 16)]
  else [c]

/-- JSON-escape a character run. -/
def escRun : List Char → List Char
  | [] => []
  | c :: cs => escChars c ++ escRun cs

/-- Read a JSON string body after the opening quote: content characters up to
the closing quote, unescaping as `JSON.parse` does; raw control characters
are rejected. Yields the content and the input after the closing quote. -/
def readStrBody : List Char → Option (List Char × List Char)
  | [] => none
  | c :: cs =>
    if c = '"' then some ([], cs)
    else if c = '\\' then
      match cs with
      | [] => none
      | e :: cs1 =>
        if e = 'u' then
          match cs1 with
          | h1 :: h2 :: h3 :: h4 :: cs2 =>
            match hexDigitVal h1, hexDigitVal h2, hexDigitVal h3, hexDigitVal h4 with
            | some a, some b, some c3, some d =>
              (readStrBody cs2).map fun r =>
                (Char.ofNat (((a * 16 + b) * 16 + c3) * 16 + d) :: r.1, r.2)
            | _, _, _, _ => none
          | _ => none
        else
          match shortEscape e with
          | some c1 => (readStrBody cs1).map fun r => (c1 :: r.1, r.2)
          | none => none
    else if c.toNat < 32 then none
    else (readStrBody cs).map fun r => (c :: r.1, r.2)
termination_by structural input => input

/-- Accumulate a run of decimal digits, stopping at the first non-digit. -/
def readDigits (acc : Nat) : List Char → Nat × List Char
  | [] => (acc, [])
  | c :: cs =>
    if isDigitChar c then readDigits (acc * 10 + (c.toNat - 48)) cs
    else (acc, c :: cs)

/-- True when the input continues with a character that would make a JSON
number non-integral (fraction or exponent), which the model rejects. -/
def startsFracExp : List Char → Bool
  | [] => false
  | c :: _ => c = '.' || c = 'e' || c = 'E'

mutual
/-- One JSON value (model of `JSON.parse` on the grammar described in the
file header). `fuel` bounds the recursion and is decremented on every
nested value or member step; the top level supplies input length plus one,
which always suffices. -/
def readVal : Nat → List Char → Option (Jv × List Char)
  | 0, _ => none
  | fuel + 1, input =>
    match skipWs input with
    | [] => none
    | c :: cs =>
      if c = '"' then (readStrBody cs).map fun r => (Jv.jstr ⟨r.1⟩, r.2)
      else if c = braceL then
        match skipWs cs with
        | [] => none
        | c1 :: cs1 =>
          if c1 = braceR then some (Jv.jobj [], cs1)
          else (readFields fuel (c1 :: cs1)).map fun r => (Jv.jobj r.1, r.2)
      else if c = '[' then
        match skipWs cs with
        | [] => none
        | c1 :: cs1 =>
          if c1 = ']' then some (Jv.jarr [], cs1)
          else (readItems fuel (c1 :: cs1)).map fun r => (Jv.jarr r.1, r.2)
      else if c = 't' then
        match cs with
        | 'r' :: 'u' :: 'e' :: cs1 => some (Jv.jbool true, cs1)
        | _ => none
      else if c = 'f' then
        match cs with
        | 'a' :: 'l' :: 's' :: 'e' :: cs1 => some (Jv.jbool false, cs1)
        | _ => none
      else if c = 'n' then
        match cs with
        | 'u' :: 'l' :: 'l' :: cs1 => some (Jv.jnull, cs1)
        | _ => none
      else if c = '-' then
        match cs with
        | [] => none
        | d :: cs1 =>
          if isDigitChar d then
            let r := readDigits (d.toNat - 48) cs1
            if startsFracExp r.2 then none else some (Jv.jnum (-(r.1 : Int)), r.2)
          else none
      else if isDigitChar c then
        let r := readDigits (c.toNat - 48) cs
        if startsFracExp r.2 then none else some (Jv.jnum (r.1 : Int), r.2)
      else none

/-- One-or-more comma-separated object members up to the closing brace. -/
def readFields : Nat → List Char → Option (List (String × Jv) × List Char)
  | 0, _ => none
  | fuel + 1, input =>
    match skipWs input with
    | [] => none
    | c :: cs =>
      if c = '"' then
        match readStrBody cs with
        | none => none
        | some (key, r1) =>
          match skipWs r1 with
          | ':' :: r2 =>
            match readVal fuel r2 with
            | none => none
            | some (v, r3) =>
              match skipWs r3 with
              | c4 :: r4 =>
                if c4 = ',' then
                  (readFields fuel r4).map fun r => ((⟨key⟩, v) :: r.1, r.2)
                else if c4 = braceR then some ([(⟨key⟩, v)], r4)
                else none
              | [] => none
          | _ => none
      else none

/-- One-or-more comma-separated array items up to the closing bracket. -/
def readItems : Nat → List Char → Option (List Jv × List Char)
  | 0, _ => none
  | fuel + 1, input =>
    match readVal fuel input with
    | none => none
    | some (v, r1) =>
      match skipWs r1 with
      | c2 :: r2 =>
        if c2 = ',' then (readItems fuel r2).map fun r => (v :: r.1, r.2)
        else if c2 = ']' then some ([v], r2)
        else none
      | [] => none
end

/-- Model of `JSON.parse`: parse a complete document, requiring only
whitespace after the value; `none` models the thrown `SyntaxError`. -/
def Jv.parse (s : String) : Option Jv :=
  match readVal (s.length + 1) s.data with
  | some (v, rest) => if skipWs rest = [] then some v else none
  | none => none

/-- Decimal digits of `n`, most significant first (for `n = 0`: `"0"`),
matching how `JSON.stringify` prints a non-negative safe integer. -/
def natChars (n : Nat) : List Char :=
  if n = 0 then ['0'] else ((Nat.digits 10 n).map Nat.digitChar).reverse

/-- The characters `JSON.stringify` prints for an integer. -/
def intChars (i : Int) : List Char :=
  if i < 0 then '-' :: natChars (-i).toNat else natChars i.toNat

/-- Filtering never grows a list's `sizeOf` (termination measure of the
printer below, whose object arm filters out `undefined` members). -/
theorem sizeOf_filter_le {α : Type} [SizeOf α] (p : α → Bool) :
    ∀ l : List α, sizeOf (l.filter p) ≤ sizeOf l := by
  intro l
  induction l with
  | nil => simp
  | cons a t ih =>
    simp only [List.filter]
    cases p a <;> simp <;> omega

mutual
/-- Model of `JSON.stringify` (character list form). Members whose value is
`undefined` are dropped, as `JSON.stringify` drops them; an `undefined`
array item prints as `null`, as in JavaScript. -/
def Jv.print : Jv → List Char
  | .jundef => ['n', 'u', 'l', 'l']
  | .jnull => ['n', 'u', 'l', 'l']
  | .jbool true => ['t', 'r', 'u', 'e']
  | .jbool false => ['f', 'a', 'l', 's', 'e']
  | .jnum n => intChars n
  | .jstr s => '"' :: (escRun s.data ++ ['"'])
  | .jarr xs => '[' :: (Jv.printItems xs ++ [']'])
  | .jobj fs => braceL :: (Jv.printFields (fs.filter fun p => p.2.isDefined) ++ [braceR])
termination_by v => sizeOf v
decreasing_by
  all_goals simp_wf
  · have := sizeOf_filter_le (fun p => p.2.isDefined) fs
    omega

/-- Comma-separated item list. -/
def Jv.printItems : List Jv → List Char
  | [] => []
  | [x] => Jv.print x
  | x :: xs => Jv.print x ++ ',' :: Jv.printItems xs
termination_by xs => sizeOf xs
decreasing_by all_goals simp_wf <;> omega

/-- Comma-separated member list (keys escaped like any string). -/
def Jv.printFields : List (String × Jv) → List Char
  | [] => []
  | [(k, v)] => '"' :: escRun k.data ++ '"' :: ':' :: Jv.print v
  | (k, v) :: fs => ('"' :: escRun k.data ++ '"' :: ':' :: Jv.print v) ++ ',' :: Jv.printFields fs
termination_by fs => sizeOf fs
decreasing_by all_goals simp_wf <;> omega
end

/-- Model of `JSON.stringify` as a `String`. -/
def Jv.printStr (v : Jv) : String := ⟨v.print⟩

/-- JavaScript property access on a parsed value, last binding winning as in
`JSON.parse` duplicate-key semantics; yields `jundef` when the key is
missing (and on non-objects, whose property set the payloads never use). -/
def Jv.getProp (fs : List (String × Jv)) (k : String) : Jv :=
  fs.foldl (fun acc p => if p.1 = k then p.2 else acc) Jv.jundef

/-- JavaScript truthiness of a value. -/
def Jv.truthy : Jv → Bool
  | .jundef => false
  | .jnull => false
  | .jbool b => b
  | .jnum n => n ≠ 0
  | .jstr s => s ≠ ""
  | .jarr _ => true
  | .jobj _ => true

/-- JavaScript string coercion of a value, as a template literal performs it
(used only for human-readable `returnDisplay` strings). -/
def Jv.display : Jv → String
  | .jundef => "undefined"
  | .jnull => "null"
  | .jbool true => "true"
  | .jbool false => "false"
  | .jnum n => ⟨intChars n⟩
  | .jstr s => s
  | .jarr _ => ""
  | .jobj _ => "[object Object]"

/-- JavaScript object-literal evaluation step: assigning key `k` overwrites an
existing binding in place, otherwise appends. -/
def jsUpsert (fs : List (String × Jv)) (k : String) (v : Jv) : List (String × Jv) :=
  if fs.any fun p => p.1 == k then fs.map fun p => if p.1 == k then (p.1, v) else p
  else fs ++ [(k, v)]

/-- The member list a JavaScript object literal (with spreads flattened into
the pair list) evaluates to. -/
def jsObjLit (pairs : List (String × Jv)) : List (String × Jv) :=
  pairs.foldl (fun fs p => jsUpsert fs p.1 p.2) []

/-- One element of a `@google/genai` `PartListUnion` as the decoders see it: a
bare string, a `Part` object carrying a `text` field, or a `Part` object
without one (function responses, inline data, ...). -/
inductive JsPart where
  | strPart (s : String)
  | textPart (t : String)
  | dataPart

/-- A `PartListUnion` value: a bare string, one `Part`, or an array. -/
inductive PartListUnion where
  | str (s : String)
  | part (p : JsPart)
  | list (ps : List JsPart)

/-- JavaScript truthiness of a `PartListUnion` (only the empty string is
falsy; arrays and objects are always truthy). -/
def PartListUnion.truthy : PartListUnion → Bool
  | .str s => s ≠ ""
  | _ => true

/-- A tool's result (`ToolResult` of `tools.ts`): payload for the model and a
display string. -/
structure ToolResult where
  llmContent : PartListUnion
  returnDisplay : String

/-- A JavaScript argument object for a tool call. -/
abbrev ToolArgs := List (String × Jv)

/-- The capability interface the runner consumes (`BaseTool`): a name and an
`execute` that may fault, modelled as `Except` with the fault message. -/
structure Tool where
  name : String
  execute : ToolArgs → Except String ToolResult

/-- A requested tool call (`ToolCallRequestInfo` of `turn.ts`). -/
structure ToolCallRequestInfo where
  callId : String
  name : String
  args : ToolArgs

/-- A completed tool call as the primary conversation reports one
(`ToolCallResponseInfo`); `responseParts` may be absent. -/
structure ToolCallResponseInfo where
  callId : String
  responseParts : Option PartListUnion
  resultDisplay : Option String
  error : Option String

/-- Modelled from the spec: the Capability Registry (`ToolRegistry` of
`tool-registry.ts`, which is not under `src/`) is "a mapping from capability
name to an invocable capability" (§2), so registration is keyed by the
tool's name, a later registration for a name replacing the earlier one. -/
abbrev ToolRegistry := List Tool

/-- Modelled from the spec: register a tool under its name (map update). -/
def ToolRegistry.registerTool (reg : ToolRegistry) (tool : Tool) : ToolRegistry :=
  (reg.filter fun u => u.name != tool.name) ++ [tool]

/-- Modelled from the spec: `get(name) -> capability | absent` (§4.1). -/
def ToolRegistry.getTool (reg : ToolRegistry) (name : String) : Option Tool :=
  reg.find? fun t => t.name == name

/-- Modelled from the spec: `all() -> sequence of capabilities` (§4.1). -/
def ToolRegistry.getAllTools (reg : ToolRegistry) : List Tool := reg

/-- The typed result record of a task agent (`TaskAgentResult` of
`task-agent-tool.ts`; the spec's AgentReturnSignal). -/
structure TaskAgentResult where
  success : Bool
  description : String
  result : String
deriving DecidableEq

/-- What `checkForAgentReturn` actually constructs: the three property reads
off the parsed payload, each an arbitrary JavaScript value (the TypeScript
code performs no shape validation beyond the `type` tag, so a field missing
from the payload comes back as `undefined`). -/
structure AgentReturnJs where
  success : Jv
  description : Jv
  result : Jv

/-- The embedding of a well-typed result into the dynamic result space. -/
def AgentReturnJs.ofResult (v : TaskAgentResult) : AgentReturnJs :=
  ⟨Jv.jbool v.success, Jv.jstr v.description, Jv.jstr v.result⟩

/-- The `return_from_task` tool (`ReturnFromTaskTool` of
`return-from-task-tool.ts`): encodes its arguments as the
`agent_return`-tagged JSON payload (`JSON.stringify({type: 'agent_return',
...params})`) inside a single text part; it performs no other action. -/
def returnFromTaskTool : Tool where
  name := "return_from_task"
  execute := fun params =>
    .ok { llmContent := .list [.textPart
            (Jv.jobj (jsObjLit (("type", Jv.jstr "agent_return") :: params))).printStr],
          returnDisplay :=
            (if (Jv.getProp params "success").truthy then "✅ Task completed: "
             else "❌ Task failed: ") ++ (Jv.getProp params "description").display }

/-- JavaScript `??` against a numeric default, as `params.maxTurns ?? 20`
evaluates on the dynamic argument object. -/
def jsNullishNum (v : Jv) (dflt : Nat) : Jv :=
  match v with
  | .jundef => Jv.jnum dflt
  | .jnull => Jv.jnum dflt
  | v => v

/-- The `task_agent` tool (`TaskAgentTool` of `task-agent-tool.ts`): does no
work itself, it returns the `spawn_agent`-tagged JSON marker built from its
arguments with the defaulted limits (`maxTurns ?? 20`,
`timeoutMs ?? 300000`). -/
def taskAgentTool : Tool where
  name := "task_agent"
  execute := fun params =>
    let agentRequest := Jv.jobj [("type", Jv.jstr "spawn_agent"),
      ("task", Jv.getProp params "task"), ("prompt", Jv.getProp params "prompt"),
      ("maxTurns", jsNullishNum (Jv.getProp params "maxTurns") 20),
      ("timeoutMs", jsNullishNum (Jv.getProp params "timeoutMs") 300000)]
    .ok { llmContent := .list [.textPart agentRequest.printStr],
          returnDisplay := "Spawning task agent for: " ++ (Jv.getProp params "task").display }

/-- `TaskAgentRunner.createAgentToolRegistry`: copy every parent tool except
`task_agent` (no nested agents), then register the return tool. -/
def createAgentToolRegistry (parentRegistry : ToolRegistry) : ToolRegistry :=
  let agentRegistry : ToolRegistry := []
  let agentRegistry := (ToolRegistry.getAllTools parentRegistry).foldl
    (fun reg tool => if tool.name ≠ "task_agent" then ToolRegistry.registerTool reg tool else reg)
    agentRegistry
  ToolRegistry.registerTool agentRegistry returnFromTaskTool

/-- One entry of `processToolCalls`' result list: the request together with
either a result or an error message (never both). -/
structure ToolCallOutcome where
  toolCall : ToolCallRequestInfo
  result : Option ToolResult := none
  error : Option String := none

/-- `TaskAgentRunner.processToolCalls`: dispatch the batch in order; a name
the registry lacks yields the `Tool <name> not found` error outcome without
invoking anything, and a fault thrown by `execute` is caught into that
call's error outcome. -/
def processToolCalls (agentRegistry : ToolRegistry) (toolCalls : List ToolCallRequestInfo) :
    List ToolCallOutcome :=
  toolCalls.map fun toolCall =>
    match ToolRegistry.getTool agentRegistry toolCall.name with
    | none => { toolCall := toolCall, error := some ("Tool " ++ toolCall.name ++ " not found") }
    | some tool =>
      match tool.execute toolCall.args with
      | .ok result => { toolCall := toolCall, result := some result }
      | .error e => { toolCall := toolCall, error := some e }

/-- The text-level half of `TaskAgentRunner.checkForAgentReturn`:
`JSON.parse` the text (a parse failure is caught into "absent"), require
the `type` discriminant to be the string `agent_return`, and read the
`success` / `description` / `result` properties off the parsed object with
no further shape check. -/
def decodeReturnSignalText (textContent : String) : Option AgentReturnJs :=
  match Jv.parse textContent with
  | some (Jv.jobj fs) =>
    match Jv.getProp fs "type" with
    | Jv.jstr tag =>
      if tag = "agent_return" then
        some ⟨Jv.getProp fs "success", Jv.getProp fs "description", Jv.getProp fs "result"⟩
      else none
    | _ => none
  | _ => none

/-- `TaskAgentRunner.checkForAgentReturn`: pull the text of the payload's
first part, if any (an array's first element must be a `Part` object with a
`text` field — a bare string element makes the `in` operator throw, which
the surrounding `try` turns into "absent"; a single part must likewise be a
text part), then decode (§4.3). An empty text is falsy and skipped. -/
def checkForAgentReturn (response : PartListUnion) : Option AgentReturnJs :=
  let textContent : Option String :=
    match response with
    | .list (JsPart.textPart t :: _) => some t
    | .part (JsPart.textPart t) => some t
    | _ => none
  match textContent with
  | some t => if t = "" then none else decodeReturnSignalText t
  | none => none

/-- The text-level half of `isAgentSpawnRequest` (`agent-handler.ts`):
`JSON.parse`, require the `spawn_agent` tag, and return the parsed object
itself — the TypeScript `parsed as AgentSpawnRequest` cast checks nothing
beyond the tag. -/
def decodeSpawnRequestText (text : String) : Option Jv :=
  match Jv.parse text with
  | some (Jv.jobj fs) =>
    match Jv.getProp fs "type" with
    | Jv.jstr tag => if tag = "spawn_agent" then some (Jv.jobj fs) else none
    | _ => none
  | _ => none

/-- `isAgentSpawnRequest` (`agent-handler.ts`): a falsy `responseParts` is
skipped; a non-array is wrapped into a one-element array; the first element
supplies the text (here a bare string does count, unlike in
`checkForAgentReturn`); a falsy (empty) text is skipped; then decode. -/
def isAgentSpawnRequest (response : ToolCallResponseInfo) : Option Jv :=
  match response.responseParts with
  | none => none
  | some rp =>
    if rp.truthy then
      let parts : List JsPart :=
        match rp with
        | .str s => [JsPart.strPart s]
        | .part p => [p]
        | .list ps => ps
      match parts with
      | [] => none
      | firstPart :: _ =>
        let text : Option String :=
          match firstPart with
          | .strPart s => some s
          | .textPart t => some t
          | .dataPart => none
        match text with
        | some t => if t = "" then none else decodeSpawnRequestText t
        | none => none
    else none

/-- The signal a single outcome carries: the TypeScript loop guard
`result.result?.llmContent` (truthiness) followed by `checkForAgentReturn`. -/
def outcomeSignal (r : ToolCallOutcome) : Option AgentReturnJs :=
  match r.result with
  | some res => if res.llmContent.truthy then checkForAgentReturn res.llmContent else none
  | none => none

/-- The `for`-loop over a batch's outcomes: the first outcome that decodes
as a return signal, later outcomes never looked at. -/
def findAgentReturn (toolResults : List ToolCallOutcome) : Option AgentReturnJs :=
  toolResults.findSome? outcomeSignal

/-- Modelled from the spec: `convertToFunctionResponse`
(`coreToolScheduler.ts`, not under `src/`) wraps one outcome into
function-response parts for the next outbound message; represented as one
opaque non-text part (its content never feeds back into the decoders). -/
def convertToFunctionResponse (_name _callId : String) (_content : PartListUnion) : List JsPart :=
  [JsPart.dataPart]

/-- Is a part a JavaScript object (the `typeof p === 'object'` filter)? -/
def isObjPart : JsPart → Bool
  | .strPart _ => false
  | _ => true

/-- The response parts one outcome contributes to the next outbound message
(error outcomes feed the error string back; the `filter` models
`.filter(p => typeof p === 'object')`). -/
def outcomeResponseParts (r : ToolCallOutcome) : List JsPart :=
  match r.error with
  | some e =>
    (convertToFunctionResponse r.toolCall.name r.toolCall.callId
      (.str ("Error: " ++ e))).filter isObjPart
  | none =>
    match r.result with
    | some res =>
      (convertToFunctionResponse r.toolCall.name r.toolCall.callId res.llmContent).filter isObjPart
    | none => []

/-- Modelled from the spec: the conversation transport (`Turn` /
`GeminiChat`, an external collaborator at the §6 boundary) is an oracle
giving each turn's observable outcome — the accumulated content fragments
and the collected capability-call requests, or a thrown fault. -/
inductive TurnOutcome where
  | events (modelResponse : String) (toolCalls : List ToolCallRequestInfo)
  | throws (msg : String)

/-- The time-warning notice text of `runAgentTurns`. -/
def warningNotice : String :=
  "WARNING: Your time is almost up (less than 30 seconds remaining). Please summarize your progress and return soon."

/-- The warning-appending step of `runAgentTurns`: a one-element text-part
array gets the notice appended to its text, anything else is replaced by
the bare notice. -/
def addTimeWarning (lastMessage : PartListUnion) : PartListUnion :=
  match lastMessage with
  | .list [JsPart.textPart t] => .list [.textPart (t ++ "\n\n" ++ warningNotice)]
  | _ => .list [.textPart warningNotice]

/-- The fixed default failure result of `requestAgentSummary`. -/
def summaryFailureResult : AgentReturnJs :=
  AgentReturnJs.ofResult
    ⟨false, "Agent failed to complete task within time limit and did not provide a summary.", ""⟩

/-- `TaskAgentRunner.requestAgentSummary`: run one summarization turn (only
its tool calls are collected), dispatch them, take the first return signal;
anything else — no calls, no signal among the outcomes, or a thrown fault
(caught by the surrounding `try`) — yields the fixed default failure. -/
def requestAgentSummary (agentRegistry : ToolRegistry) (summaryTurn : TurnOutcome)
    (_task : String) : AgentReturnJs :=
  match summaryTurn with
  | .throws _ => summaryFailureResult
  | .events _ toolCalls =>
    if toolCalls.isEmpty then summaryFailureResult
    else
      match findAgentReturn (processToolCalls agentRegistry toolCalls) with
      | some agentReturn => agentReturn
      | none => summaryFailureResult

/-- The `while (turnsRemaining > 0)` loop of `TaskAgentRunner.runAgentTurns`.
The first `Nat` argument is `turnsRemaining` (the loop decrements it by one
at the end of every iteration), the second the ghost index feeding the turn
oracle. The result pairs the loop's value — a found return signal, the
summary after exhaustion, or a propagating turn fault — with the number of
turn iterations executed. `isTimeWarning` is the warning-flag closure read
at each iteration's start; the guard `turnsRemaining == maxTurns` restricts
the append to the first iteration, as in the source. The outbound message
is tracked for the warning logic; the oracle consumes it implicitly. -/
def runAgentTurnsLoop (agentRegistry : ToolRegistry) (script : Nat → TurnOutcome)
    (isTimeWarning : Nat → Bool) (summaryTurn : TurnOutcome) (task : String) (maxTurns : Nat) :
    Nat → Nat → PartListUnion → Except String AgentReturnJs × Nat
  | 0, _, _ => (.ok (requestAgentSummary agentRegistry summaryTurn task), 0)
  | turnsRemaining + 1, turnIdx, lastMessage =>
    let outbound := if isTimeWarning turnIdx && (turnsRemaining + 1 == maxTurns)
      then addTimeWarning lastMessage else lastMessage
    match script turnIdx with
    | .throws e => (.error e, 1)
    | .events modelResponse toolCallRequests =>
      if toolCallRequests.isEmpty then
        let next : PartListUnion :=
          if modelResponse.trim ≠ "" then
            .list [.textPart "Please continue with your task or use the return_from_task tool when finished."]
          else .list [.textPart "Continue with your task."]
        let r := runAgentTurnsLoop agentRegistry script isTimeWarning summaryTurn task maxTurns
          turnsRemaining (turnIdx + 1) next
        (r.1, r.2 + 1)
      else
        let toolResults := processToolCalls agentRegistry toolCallRequests
        match findAgentReturn toolResults with
        | some agentReturn => (.ok agentReturn, 1)
        | none =>
          let next := PartListUnion.list
            (toolResults.foldr (fun r acc => outcomeResponseParts r ++ acc) [])
          let r := runAgentTurnsLoop agentRegistry script isTimeWarning summaryTurn task maxTurns
            turnsRemaining (turnIdx + 1) (let _ := outbound; next)
          (r.1, r.2 + 1)

/-- `TaskAgentRunner.runAgentTurns`: the loop started at `turnsRemaining =
maxTurns` with the initial task message; on exhaustion the loop's zero case
asks for the summary. -/
def runAgentTurns (agentRegistry : ToolRegistry) (script : Nat → TurnOutcome)
    (isTimeWarning : Nat → Bool) (summaryTurn : TurnOutcome) (task : String) (maxTurns : Nat) :
    Except String AgentReturnJs × Nat :=
  runAgentTurnsLoop agentRegistry script isTimeWarning summaryTurn task maxTurns
    maxTurns 0 (.list [.textPart ("Begin working on your task: " ++ task)])

/-- `TaskAgentRunner.run`. `parentRegistry` is the awaited
`config.getToolRegistry()` (its fault propagates out of `run`);
`timeoutWins` says whether the hard-deadline rejection wins the
`Promise.race` against the whole turn loop, in which case the caught
`Agent timeout` error routes into one summarization attempt on the current
session; an inner error with that same message is routed identically, any
other fault is rethrown. -/
def TaskAgentRunner.run (parentRegistry : Except String ToolRegistry)
    (script : Nat → TurnOutcome) (isTimeWarning : Nat → Bool) (summaryTurn : TurnOutcome)
    (timeoutWins : Bool) (task : String) (maxTurns : Nat) :
    Except String AgentReturnJs × Nat :=
  match parentRegistry with
  | .error e => (.error e, 0)
  | .ok parent =>
    let agentRegistry := createAgentToolRegistry parent
    if timeoutWins then (.ok (requestAgentSummary agentRegistry summaryTurn task), 0)
    else
      match runAgentTurns agentRegistry script isTimeWarning summaryTurn task maxTurns with
      | (.error e, n) =>
        if e = "Agent timeout" then (.ok (requestAgentSummary agentRegistry summaryTurn task), n)
        else (.error e, n)
      | r => r

/-- The spec's AgentTaskRequest (`AgentSpawnRequest` of `agent-handler.ts`,
minus the constant tag). -/
structure AgentSpawnRequest where
  task : String
  prompt : String
  maxTurns : Nat
  timeoutMs : Nat

/-- `AgentHandlerResult` of `agent-handler.ts`; `result` carries the dynamic
record the runner produced. -/
structure AgentHandlerResult where
  isAgent : Bool
  result : Option AgentReturnJs

/-- `handleAgentSpawn` (`agent-handler.ts`): build the sub-agent session and
run it; any fault escaping the runner is caught at this outermost boundary
and converted into the `Agent failed to execute: <message>` failure
result. -/
def handleAgentSpawn (parentRegistry : Except String ToolRegistry)
    (script : Nat → TurnOutcome) (isTimeWarning : Nat → Bool) (summaryTurn : TurnOutcome)
    (timeoutWins : Bool) (request : AgentSpawnRequest) : AgentHandlerResult :=
  match (TaskAgentRunner.run parentRegistry script isTimeWarning summaryTurn timeoutWins
      request.task request.maxTurns).1 with
  | .ok result => { isAgent := true, result := some result }
  | .error errorMessage =>
    { isAgent := true,
      result := some (AgentReturnJs.ofResult
        ⟨false, "Agent failed to execute: " ++ errorMessage, ""⟩) }

/-- A `Content` of the primary conversation. -/
structure Content where
  role : String
  parts : List JsPart

/-- `formatAgentResult` (`agent-handler.ts`): the fixed template; the
`Result:` section is appended only when `result.result` is truthy
(non-empty). -/
def formatAgentResult (task : String) (result : Option TaskAgentResult) : Content :=
  match result with
  | none => { role := "model", parts := [.textPart "Agent execution failed with no result."] }
  | some r =>
    let message :=
      "Task Agent completed task: \"" ++ task ++ "\"\nSuccess: "
        ++ (if r.success then "true" else "false")
        ++ "\nSummary: " ++ r.description ++ "\n"
        ++ (if r.result ≠ "" then "\nResult:\n" ++ r.result else "")
    { role := "model", parts := [.textPart message] }

/-- The argument object of a well-typed `return_from_task` call. -/
def returnToolArgs (v : TaskAgentResult) : ToolArgs :=
  [("success", Jv.jbool v.success), ("description", Jv.jstr v.description),
   ("result", Jv.jstr v.result)]

/-- The spec's `encodeReturnSignal`: the payload text `ReturnFromTaskTool`
produces for a well-typed result (`JSON.stringify({type: 'agent_return',
...params})`). -/
def encodeReturnSignal (v : TaskAgentResult) : String :=
  (Jv.jobj (jsObjLit (("type", Jv.jstr "agent_return") :: returnToolArgs v))).printStr

/-- The spec's `encodeSpawnRequest`: the marker text `TaskAgentTool`
produces for a request whose limits are both given. -/
def encodeSpawnRequest (r : AgentSpawnRequest) : String :=
  (Jv.jobj [("type", Jv.jstr "spawn_agent"), ("task", Jv.jstr r.task),
    ("prompt", Jv.jstr r.prompt), ("maxTurns", Jv.jnum r.maxTurns),
    ("timeoutMs", Jv.jnum r.timeoutMs)]).printStr

/-- The parsed object a round-tripped spawn request decodes to. -/
def AgentSpawnRequest.toJv (r : AgentSpawnRequest) : Jv :=
  Jv.jobj [("type", Jv.jstr "spawn_agent"), ("task", Jv.jstr r.task),
    ("prompt", Jv.jstr r.prompt), ("maxTurns", Jv.jnum r.maxTurns),
    ("timeoutMs", Jv.jnum r.timeoutMs)]

/-- True when the input cannot extend a just-read integer: empty, or headed
by a character that is neither a digit nor a fraction/exponent starter. -/
def numBoundary : List Char → Bool
  | [] => true
  | c :: _ => !(isDigitChar c || c = '.' || c = 'e' || c = 'E')

/-- The return signal one scripted turn surfaces: none for a thrown turn or
a turn without capability calls, else the first signal among the dispatched
batch's outcomes (the observable the loop's early exit keys on). -/
def turnSignal (agentRegistry : ToolRegistry) (o : TurnOutcome) : Option AgentReturnJs :=
  match o with
  | .throws _ => none
  | .events _ toolCalls =>
    if toolCalls.isEmpty then none
    else findAgentReturn (processToolCalls agentRegistry toolCalls)

/-! ## Round-trip of the JSON codec model, used by the codec claims -/

theorem skipWs_cons_of_not_ws {c : Char} (h : isWsChar c = false) (cs : List Char) :
    skipWs (c :: cs) = c :: cs := by
  simp [skipWs, h]

theorem hexDigitVal_hexDigitChar : ∀ n < 16, hexDigitVal (hexDigitChar n) = some n := by decide

theorem readStrBody_quote (rest : List Char) : readStrBody ('"' :: rest) = some ([], rest) := by
  rw [readStrBody.eq_def]; rfl

theorem readStrBody_unicode (h1 h2 h3 h4 : Char) (a b u v : Nat) (rest : List Char)
    (e1 : hexDigitVal h1 = some a) (e2 : hexDigitVal h2 = some b)
    (e3 : hexDigitVal h3 = some u) (e4 : hexDigitVal h4 = some v) :
    readStrBody ('\\' :: 'u' :: h1 :: h2 :: h3 :: h4 :: rest)
      = (readStrBody rest).map fun r => (Char.ofNat (((a * 16 + b) * 16 + u) * 16 + v) :: r.1, r.2) := by
  rw [readStrBody.eq_def]
  simp [e1, e2, e3, e4]

theorem readStrBody_escChars (c : Char) (rest : List Char) :
    readStrBody (escChars c ++ rest) = (readStrBody rest).map fun r => (c :: r.1, r.2) := by
  by_cases h1 : c = '"'
  · subst h1
    rw [show escChars '"' = ['\\', '"'] from rfl, readStrBody.eq_def]; rfl
  by_cases h2 : c = '\\'
  · subst h2
    rw [show escChars '\\' = ['\\', '\\'] from rfl, readStrBody.eq_def]; rfl
  by_cases h3 : c = '\n'
  · subst h3
    rw [show escChars '\n' = ['\\', 'n'] from rfl, readStrBody.eq_def]; rfl
  by_cases h4 : c = '\r'
  · subst h4
    rw [show escChars '\r' = ['\\', 'r'] from rfl, readStrBody.eq_def]; rfl
  by_cases h5 : c = '\t'
  · subst h5
    rw [show escChars '\t' = ['\\', 't'] from rfl, readStrBody.eq_def]; rfl
  by_cases h6 : c = Char.ofNat 8
  · subst h6
    rw [show escChars (Char.ofNat 8) = ['\\', 'b'] from rfl, readStrBody.eq_def]; rfl
  by_cases h7 : c = Char.ofNat 12
  · subst h7
    rw [show escChars (Char.ofNat 12) = ['\\', 'f'] from rfl, readStrBody.eq_def]; rfl
  by_cases h8 : c.toNat < 32
  · have hdiv : c.toNat / 16 < 16 := by omega
    have hmod : c.toNat % 16 < 16 := by omega
    simp only [escChars, if_neg h1, if_neg h2, if_neg h3, if_neg h4, if_neg h5, if_neg h6,
      if_neg h7, if_pos h8, List.cons_append, List.nil_append]
    rw [readStrBody_unicode _ _ _ _ 0 0 (c.toNat / 16) (c.toNat % 16) rest (by decide) (by decide)
      (hexDigitVal_hexDigitChar _ hdiv) (hexDigitVal_hexDigitChar _ hmod)]
    have harith : ((0 * 16 + 0) * 16 + c.toNat / 16) * 16 + c.toNat % 16 = c.toNat := by omega
    rw [harith, Char.ofNat_toNat]
  · simp only [escChars, if_neg h1, if_neg h2, if_neg h3, if_neg h4, if_neg h5, if_neg h6,
      if_neg h7, if_neg h8, List.cons_append, List.nil_append]
    rw [readStrBody.eq_def]
    simp [h1, h2, h8]

theorem readStrBody_escRun (s rest : List Char) :
    readStrBody (escRun s ++ '"' :: rest) = some (s, rest) := by
  induction s with
  | nil => simpa [escRun] using readStrBody_quote rest
  | cons c cs ih =>
    rw [escRun, List.append_assoc, readStrBody_escChars, ih]
    rfl

theorem digitChar_prop : ∀ d < 10,
    isDigitChar (Nat.digitChar d) = true ∧ (Nat.digitChar d).toNat - 48 = d := by decide

theorem natChars_base {n : Nat} (h : n < 10) : natChars n = [Nat.digitChar n] := by
  rcases Nat.eq_zero_or_pos n with rfl | hpos
  · rfl
  · rw [natChars, if_neg (by omega), Nat.digits_def' (by norm_num : 1 < 10) hpos,
      Nat.div_eq_of_lt h, Nat.digits_zero]
    simp [Nat.mod_eq_of_lt h]

theorem natChars_step {n : Nat} (h : 10 ≤ n) :
    natChars n = natChars (n / 10) ++ [Nat.digitChar (n % 10)] := by
  have hpos : 0 < n := by omega
  have hq : 0 < n / 10 := Nat.div_pos h (by norm_num)
  rw [natChars, if_neg (by omega), Nat.digits_def' (by norm_num : 1 < 10) hpos]
  rw [natChars, if_neg (by omega)]
  simp

theorem natChars_getsDigit (n : Nat) :
    ∃ d ds, natChars n = d :: ds ∧ isDigitChar d = true := by
  induction n using Nat.strong_induction_on with
  | _ n ih =>
    by_cases h : n < 10
    · exact ⟨Nat.digitChar n, [], natChars_base h, (digitChar_prop n h).1⟩
    · obtain ⟨d, ds, hds, hdig⟩ := ih (n / 10) (by omega)
      exact ⟨d, ds ++ [Nat.digitChar (n % 10)], by rw [natChars_step (by omega), hds]; rfl, hdig⟩

theorem readDigits_natChars (n : Nat) : ∀ (acc : Nat) (rest : List Char),
    readDigits acc (natChars n ++ rest)
      = readDigits (acc * 10 ^ (natChars n).length + n) rest := by
  induction n using Nat.strong_induction_on with
  | _ n ih =>
    intro acc rest
    by_cases h : n < 10
    · rw [natChars_base h]
      obtain ⟨hdig, hval⟩ := digitChar_prop n h
      simp only [List.cons_append, List.nil_append, readDigits, hdig, if_pos, hval,
        List.length_singleton, pow_one]
      rfl
    · rw [natChars_step (by omega), List.append_assoc, List.cons_append, List.nil_append,
        ih (n / 10) (by omega)]
      obtain ⟨hdig, hval⟩ := digitChar_prop (n % 10) (by omega)
      rw [readDigits, if_pos hdig, hval, List.length_append, List.length_singleton, pow_succ]
      congr 1
      have := Nat.div_add_mod n 10
      ring_nf
      omega

theorem readDigits_stop {rest : List Char} (h : numBoundary rest = true) (v : Nat) :
    readDigits v rest = (v, rest) := by
  match rest with
  | [] => rfl
  | c :: cs =>
    simp only [numBoundary, Bool.not_eq_true', Bool.or_eq_false_iff] at h
    rw [readDigits, if_neg (by simp [h.1.1.1])]

theorem readDigits_natChars_full (n : Nat) {rest : List Char} (h : numBoundary rest = true) :
    readDigits 0 (natChars n ++ rest) = (n, rest) := by
  rw [readDigits_natChars, Nat.zero_mul, Nat.zero_add, readDigits_stop h]

theorem numBoundary_not_fracExp {rest : List Char} (h : numBoundary rest = true) :
    startsFracExp rest = false := by
  match rest with
  | [] => rfl
  | c :: cs =>
    simp only [numBoundary, Bool.not_eq_true', Bool.or_eq_false_iff] at h
    simp [startsFracExp, h.1.1.2, h.1.2, h.2]

theorem digitChar_not_special {c : Char} (h : isDigitChar c = true) :
    isWsChar c = false ∧ c ≠ '"' ∧ c ≠ braceL ∧ c ≠ '[' ∧ c ≠ 't' ∧ c ≠ 'f' ∧ c ≠ 'n'
      ∧ c ≠ '-' := by
  refine ⟨?_, ?_, ?_, ?_, ?_, ?_, ?_, ?_⟩
  · simp only [isWsChar, Bool.or_eq_false_iff]
    refine ⟨⟨⟨?_, ?_⟩, ?_⟩, ?_⟩ <;>
      (simp only [decide_eq_false_iff_not]; rintro rfl; revert h; decide)
  all_goals rintro rfl; revert h; decide

theorem readVal_step (f : Nat) (input : List Char) :
    readVal (f + 1) input =
      match skipWs input with
      | [] => none
      | c :: cs =>
        if c = '"' then (readStrBody cs).map fun r => (Jv.jstr ⟨r.1⟩, r.2)
        else if c = braceL then
          match skipWs cs with
          | [] => none
          | c1 :: cs1 =>
            if c1 = braceR then some (Jv.jobj [], cs1)
            else (readFields f (c1 :: cs1)).map fun r => (Jv.jobj r.1, r.2)
        else if c = '[' then
          match skipWs cs with
          | [] => none
          | c1 :: cs1 =>
            if c1 = ']' then some (Jv.jarr [], cs1)
            else (readItems f (c1 :: cs1)).map fun r => (Jv.jarr r.1, r.2)
        else if c = 't' then
          match cs with
          | 'r' :: 'u' :: 'e' :: cs1 => some (Jv.jbool true, cs1)
          | _ => none
        else if c = 'f' then
          match cs with
          | 'a' :: 'l' :: 's' :: 'e' :: cs1 => some (Jv.jbool false, cs1)
          | _ => none
        else if c = 'n' then
          match cs with
          | 'u' :: 'l' :: 'l' :: cs1 => some (Jv.jnull, cs1)
          | _ => none
        else if c = '-' then
          match cs with
          | [] => none
          | d :: cs1 =>
            if isDigitChar d then
              let r := readDigits (d.toNat - 48) cs1
              if startsFracExp r.2 then none else some (Jv.jnum (-(r.1 : Int)), r.2)
            else none
        else if isDigitChar c then
          let r := readDigits (c.toNat - 48) cs
          if startsFracExp r.2 then none else some (Jv.jnum (r.1 : Int), r.2)
        else none := rfl

theorem readFields_step (f : Nat) (input : List Char) :
    readFields (f + 1) input =
      match skipWs input with
      | [] => none
      | c :: cs =>
        if c = '"' then
          match readStrBody cs with
          | none => none
          | some (key, r1) =>
            match skipWs r1 with
            | ':' :: r2 =>
              match readVal f r2 with
              | none => none
              | some (v, r3) =>
                match skipWs r3 with
                | c4 :: r4 =>
                  if c4 = ',' then
                    (readFields f r4).map fun r => ((⟨key⟩, v) :: r.1, r.2)
                  else if c4 = braceR then some ([(⟨key⟩, v)], r4)
                  else none
                | [] => none
            | _ => none
        else none := rfl

theorem readVal_print_str (f : Nat) (s : String) (rest : List Char) :
    readVal (f + 1) (Jv.print (Jv.jstr s) ++ rest) = some (Jv.jstr s, rest) := by
  rw [Jv.print]
  simp only [List.cons_append, List.append_assoc, List.singleton_append]
  rw [readVal_step]
  simp [skipWs, isWsChar, readStrBody_escRun, braceL]

theorem readVal_print_bool (f : Nat) (b : Bool) (rest : List Char) :
    readVal (f + 1) (Jv.print (Jv.jbool b) ++ rest) = some (Jv.jbool b, rest) := by
  cases b
  · rw [Jv.print, readVal_step]; rfl
  · rw [Jv.print, readVal_step]; rfl

theorem readVal_print_nat (f : Nat) (n : Nat) (rest : List Char)
    (hrest : numBoundary rest = true) :
    readVal (f + 1) (Jv.print (Jv.jnum (n : Int)) ++ rest) = some (Jv.jnum (n : Int), rest) := by
  have hprint : Jv.print (Jv.jnum (n : Int)) = natChars n := by
    rw [Jv.print, intChars, if_neg (by omega), Int.toNat_natCast]
  obtain ⟨d, ds, hds, hdig⟩ := natChars_getsDigit n
  obtain ⟨hws, hq, hbl, hbk, ht, hf, hn, hm⟩ := digitChar_not_special hdig
  have hread : readDigits (d.toNat - 48) (ds ++ rest) = (n, rest) := by
    have h0 := readDigits_natChars_full n hrest
    rw [hds, List.cons_append, readDigits, if_pos hdig, Nat.zero_mul, Nat.zero_add] at h0
    exact h0
  rw [hprint, hds, List.cons_append, readVal_step]
  simp [skipWs, hws, hq, hbl, hbk, ht, hf, hn, hm, hdig, hread,
    numBoundary_not_fracExp hrest]

theorem printFields_cons_cons (k : String) (v : Jv) (kv2 : String × Jv)
    (tl2 : List (String × Jv)) :
    Jv.printFields ((k, v) :: kv2 :: tl2)
      = ('"' :: escRun k.data ++ '"' :: ':' :: Jv.print v) ++ ',' :: Jv.printFields (kv2 :: tl2) := by
  rw [Jv.printFields]
  simp

theorem printFields_cons_head (k : String) (v : Jv) (tl : List (String × Jv)) :
    ∃ t, Jv.printFields ((k, v) :: tl) = '"' :: t := by
  match tl with
  | [] => rw [Jv.printFields]; exact ⟨_, rfl⟩
  | kv2 :: tl2 => rw [printFields_cons_cons]; exact ⟨_, List.cons_append _ _ _⟩

theorem readFields_printFields : ∀ (ms : List (String × Jv)), ms ≠ [] →
    (∀ kv ∈ ms, ∀ (g : Nat) (tail : List Char), numBoundary tail = true →
      readVal (g + 1) (Jv.print kv.2 ++ tail) = some (kv.2, tail)) →
    ∀ (f : Nat) (rest : List Char),
      readFields (f + ms.length + 1) (Jv.printFields ms ++ braceR :: rest) = some (ms, rest)
  | [], h, _ => absurd rfl h
  | [(k, v)], _, hvals => by
    intro f rest
    have hv := hvals (k, v) (by simp) f (braceR :: rest) (by rfl)
    simp only [braceR] at hv
    rw [Jv.printFields]
    simp only [List.cons_append, List.append_assoc]
    show readFields (f + 1 + 1) _ = _
    rw [readFields_step]
    simp [skipWs, isWsChar, braceL, braceR, readStrBody_escRun, hv]
  | (k, v) :: (kv2 :: tl), _, hvals => by
    intro f rest
    have hv := hvals (k, v) (by simp) (f + (kv2 :: tl).length)
      (',' :: (Jv.printFields (kv2 :: tl) ++ braceR :: rest)) (by rfl)
    have ih := readFields_printFields (kv2 :: tl) (by simp)
      (fun kv hkv => hvals kv (by simp [hkv])) f rest
    simp only [List.length_cons, braceR] at ih hv ⊢
    rw [printFields_cons_cons]
    simp only [List.cons_append, List.append_assoc]
    have harith : f + (tl.length + 1 + 1) + 1 = (f + (tl.length + 1) + 1) + 1 := by omega
    rw [harith, readFields_step]
    simp [skipWs, isWsChar, braceL, braceR, readStrBody_escRun, hv, ih]
theorem length_le_printFields : ∀ ms : List (String × Jv), ms.length ≤ (Jv.printFields ms).length
  | [] => by simp [Jv.printFields]
  | [(k, v)] => by rw [Jv.printFields]; simp
  | (k, v) :: (kv2 :: tl) => by
    have ihl := length_le_printFields (kv2 :: tl)
    rw [printFields_cons_cons]
    simp only [List.length_cons, List.length_append] at ihl ⊢
    omega

theorem readVal_print_obj (fs : List (String × Jv)) (hne : fs ≠ [])
    (hclean : (fs.filter fun p => p.2.isDefined) = fs)
    (hvals : ∀ kv ∈ fs, ∀ (g : Nat) (tail : List Char), numBoundary tail = true →
      readVal (g + 1) (Jv.print kv.2 ++ tail) = some (kv.2, tail))
    (f : Nat) (rest : List Char) :
    readVal (f + fs.length + 2) (Jv.print (Jv.jobj fs) ++ rest) = some (Jv.jobj fs, rest) := by
  obtain ⟨k, v, tl, rfl⟩ : ∃ k v tl, fs = (k, v) :: tl := by
    match fs, hne with
    | (k, v) :: tl, _ => exact ⟨k, v, tl, rfl⟩
  obtain ⟨t, ht⟩ := printFields_cons_head k v tl
  have hfields := readFields_printFields ((k, v) :: tl) (by simp) hvals f rest
  rw [ht, List.cons_append] at hfields
  rw [Jv.print, hclean, List.cons_append, List.append_assoc, List.singleton_append, ht,
    List.cons_append]
  simp only [braceL, braceR, List.length_cons] at hfields ⊢
  show readVal ((f + (tl.length + 1) + 1) + 1) _ = _
  rw [readVal_step]
  simp [skipWs, isWsChar, braceL, braceR, hfields]

theorem parse_print_obj (fs : List (String × Jv)) (hne : fs ≠ [])
    (hclean : (fs.filter fun p => p.2.isDefined) = fs)
    (hvals : ∀ kv ∈ fs, ∀ (g : Nat) (tail : List Char), numBoundary tail = true →
      readVal (g + 1) (Jv.print kv.2 ++ tail) = some (kv.2, tail)) :
    Jv.parse (Jv.jobj fs).printStr = some (Jv.jobj fs) := by
  have hlen : ((Jv.jobj fs).print).length ≥ fs.length + 2 := by
    obtain ⟨k, v, tl, rfl⟩ : ∃ k v tl, fs = (k, v) :: tl := by
      match fs, hne with
      | (k, v) :: tl, _ => exact ⟨k, v, tl, rfl⟩
    rw [Jv.print, hclean]
    have ihl := length_le_printFields ((k, v) :: tl)
    simp only [List.length_cons, List.length_append, List.length_singleton] at ihl ⊢
    omega
  have hval := readVal_print_obj fs hne hclean hvals
    (((Jv.jobj fs).print).length - (fs.length + 1)) []
  rw [List.append_nil] at hval
  have harith : ((Jv.jobj fs).print).length - (fs.length + 1) + fs.length + 2
      = ((Jv.jobj fs).print).length + 1 := by omega
  rw [harith] at hval
  have hdata : ((Jv.jobj fs).printStr).data = (Jv.jobj fs).print := rfl
  have hslen : ((Jv.jobj fs).printStr).length = ((Jv.jobj fs).print).length := rfl
  rw [Jv.parse, hdata, hslen, hval]
  rfl

theorem printStr_jobj_ne_empty (fs : List (String × Jv)) : (Jv.jobj fs).printStr ≠ "" := by
  intro h
  have hd : Jv.print (Jv.jobj fs) = [] := congrArg String.data h
  rw [Jv.print] at hd
  exact absurd hd (by simp)

theorem parse_encodeReturnSignal (v : TaskAgentResult) :
    Jv.parse (encodeReturnSignal v)
      = some (Jv.jobj [("type", Jv.jstr "agent_return"), ("success", Jv.jbool v.success),
          ("description", Jv.jstr v.description), ("result", Jv.jstr v.result)]) := by
  have hobj : encodeReturnSignal v
      = (Jv.jobj [("type", Jv.jstr "agent_return"), ("success", Jv.jbool v.success),
          ("description", Jv.jstr v.description), ("result", Jv.jstr v.result)]).printStr := rfl
  rw [hobj]
  refine parse_print_obj _ (by simp) rfl ?_
  intro kv hkv g tail htail
  simp only [List.mem_cons, List.not_mem_nil, or_false] at hkv
  rcases hkv with rfl | rfl | rfl | rfl
  · exact readVal_print_str g _ tail
  · exact readVal_print_bool g _ tail
  · exact readVal_print_str g _ tail
  · exact readVal_print_str g _ tail

theorem decodeReturnSignalText_encode (v : TaskAgentResult) :
    decodeReturnSignalText (encodeReturnSignal v) = some (AgentReturnJs.ofResult v) := by
  simp only [decodeReturnSignalText]
  rw [parse_encodeReturnSignal]
  rfl

theorem encodeReturnSignal_ne_empty (v : TaskAgentResult) : encodeReturnSignal v ≠ "" :=
  fun h => printStr_jobj_ne_empty _ h

theorem checkForAgentReturn_encode (v : TaskAgentResult) :
    checkForAgentReturn (PartListUnion.list [JsPart.textPart (encodeReturnSignal v)])
      = some (AgentReturnJs.ofResult v) := by
  simp only [checkForAgentReturn]
  rw [if_neg (encodeReturnSignal_ne_empty v), decodeReturnSignalText_encode]

theorem parse_encodeSpawnRequest (r : AgentSpawnRequest) :
    Jv.parse (encodeSpawnRequest r) = some (AgentSpawnRequest.toJv r) := by
  refine parse_print_obj _ (by simp) rfl ?_
  intro kv hkv g tail htail
  simp only [List.mem_cons, List.not_mem_nil, or_false] at hkv
  rcases hkv with rfl | rfl | rfl | rfl | rfl
  · exact readVal_print_str g _ tail
  · exact readVal_print_str g _ tail
  · exact readVal_print_str g _ tail
  · exact readVal_print_nat g _ tail htail
  · exact readVal_print_nat g _ tail htail

theorem decodeSpawnRequestText_encode (r : AgentSpawnRequest) :
    decodeSpawnRequestText (encodeSpawnRequest r) = some (AgentSpawnRequest.toJv r) := by
  simp only [decodeSpawnRequestText]
  rw [parse_encodeSpawnRequest]
  rfl

theorem encodeSpawnRequest_ne_empty (r : AgentSpawnRequest) : encodeSpawnRequest r ≠ "" :=
  fun h => printStr_jobj_ne_empty _ h

theorem isAgentSpawnRequest_encode (r : AgentSpawnRequest) (cid : String)
    (rd er : Option String) :
    isAgentSpawnRequest ⟨cid, some (.list [.textPart (encodeSpawnRequest r)]), rd, er⟩
      = some (AgentSpawnRequest.toJv r) := by
  simp only [isAgentSpawnRequest]
  rw [show (PartListUnion.list [JsPart.textPart (encodeSpawnRequest r)]).truthy = true from rfl]
  simp [encodeSpawnRequest_ne_empty r, decodeSpawnRequestText_encode]

theorem encodeReturnSignal_data_length (v : TaskAgentResult) :
    24 ≤ (encodeReturnSignal v).data.length := by
  have hform : (encodeReturnSignal v).data
      = braceL :: (Jv.printFields [("type", Jv.jstr "agent_return"),
          ("success", Jv.jbool v.success), ("description", Jv.jstr v.description),
          ("result", Jv.jstr v.result)] ++ [braceR]) := by
    show Jv.print (Jv.jobj _) = _
    rw [Jv.print]
    rfl
  have htype : Jv.print (Jv.jstr "agent_return") = '"' :: (escRun "agent_return".data ++ ['"']) := by
    rw [Jv.print]
  have e1 : (escRun "type".data).length = 4 := rfl
  have e2 : (escRun "agent_return".data).length = 12 := rfl
  rw [hform, printFields_cons_cons, htype]
  simp only [List.length_cons, List.length_append, e1, e2, List.length_singleton]
  omega

/-! ## Registry derivation (capability isolation) -/

theorem mem_registerTool {reg : ToolRegistry} {tool u : Tool}
    (h : u ∈ ToolRegistry.registerTool reg tool) : u ∈ reg ∨ u = tool := by
  rw [ToolRegistry.registerTool] at h
  rcases List.mem_append.mp h with h1 | h1
  · exact Or.inl (List.mem_of_mem_filter h1)
  · exact Or.inr (List.mem_singleton.mp h1)

theorem countP_registerTool (reg : ToolRegistry) (tool : Tool) (n : String) :
    ((ToolRegistry.registerTool reg tool).countP fun t => t.name == n)
      = if tool.name = n then 1 else reg.countP fun t => t.name == n := by
  rw [ToolRegistry.registerTool, List.countP_append]
  by_cases h : tool.name = n
  · rw [if_pos h]
    have hz : ((reg.filter fun u => u.name != tool.name).countP fun t => t.name == n) = 0 := by
      rw [List.countP_eq_zero]
      intro u hu
      have := List.of_mem_filter hu
      simp only [bne_iff_ne, ne_eq] at this
      simp [h ▸ this]
    rw [hz]
    simp [h]
  · rw [if_neg h]
    have hone : (List.countP (fun t => t.name == n) [tool]) = 0 := by
      simp [h]
    rw [hone, Nat.add_zero, List.countP_filter, List.countP_congr]
    intro u _
    constructor
    · intro hu
      simp only [Bool.and_eq_true, beq_iff_eq, bne_iff_ne, ne_eq] at hu ⊢
      exact hu.1
    · intro hu
      simp only [beq_iff_eq] at hu
      simp only [Bool.and_eq_true, beq_iff_eq, bne_iff_ne, ne_eq]
      exact ⟨hu, fun he => h (he ▸ hu ▸ rfl)⟩

theorem createAgentToolRegistry_mem {parent : ToolRegistry} {u : Tool}
    (h : u ∈ createAgentToolRegistry parent) :
    u.name ≠ "task_agent" ∨ u = returnFromTaskTool := by
  rw [createAgentToolRegistry] at h
  rcases mem_registerTool h with h1 | h1
  · left
    have key : ∀ (l : List Tool) (acc : ToolRegistry), (∀ w ∈ acc, w.name ≠ "task_agent") →
        ∀ w ∈ (l.foldl (fun reg tool =>
          if tool.name ≠ "task_agent" then ToolRegistry.registerTool reg tool else reg) acc),
          w.name ≠ "task_agent" := by
      intro l
      induction l with
      | nil => intro acc hacc w hw; exact hacc w hw
      | cons t l ih =>
        intro acc hacc w hw
        rw [List.foldl_cons] at hw
        refine ih _ ?_ w hw
        intro w2 hw2
        by_cases ht : t.name ≠ "task_agent"
        · rw [if_pos ht] at hw2
          rcases mem_registerTool hw2 with h2 | h2
          · exact hacc w2 h2
          · exact h2 ▸ ht
        · rw [if_neg ht] at hw2
          exact hacc w2 hw2
    exact key _ [] (by simp) u h1
  · exact Or.inr h1

/-! ## Dispatcher (fault containment) -/

theorem processToolCalls_length (agentRegistry : ToolRegistry)
    (toolCalls : List ToolCallRequestInfo) :
    (processToolCalls agentRegistry toolCalls).length = toolCalls.length :=
  List.length_map _ _

theorem processToolCalls_get (agentRegistry : ToolRegistry)
    (toolCalls : List ToolCallRequestInfo) (i : Nat) (hi : i < toolCalls.length) :
    (processToolCalls agentRegistry toolCalls).get
        ⟨i, by rw [processToolCalls_length]; exact hi⟩
      = (match ToolRegistry.getTool agentRegistry (toolCalls.get ⟨i, hi⟩).name with
        | none => ⟨toolCalls.get ⟨i, hi⟩, none,
            some ("Tool " ++ (toolCalls.get ⟨i, hi⟩).name ++ " not found")⟩
        | some tool =>
          match tool.execute (toolCalls.get ⟨i, hi⟩).args with
          | .ok result => ⟨toolCalls.get ⟨i, hi⟩, some result, none⟩
          | .error e => ⟨toolCalls.get ⟨i, hi⟩, none, some e⟩) := by
  unfold processToolCalls
  simp only [List.get_eq_getElem, List.getElem_map]

theorem countP_of_single_fail {α : Type} (p : α → Bool) :
    ∀ (l : List α) (i : Nat) (hi : i < l.length),
      p (l.get ⟨i, hi⟩) = false →
      (∀ j (hj : j < l.length), j ≠ i → p (l.get ⟨j, hj⟩) = true) →
      l.countP p = l.length - 1
  | [], i, hi, _, _ => absurd hi (by simp)
  | a :: t, 0, _, hfail, hok => by
    have hall : ∀ x ∈ t, p x = true := by
      intro x hx
      obtain ⟨j, hj, rfl⟩ := List.mem_iff_get.mp hx
      have hjl : ↑j < t.length := j.isLt
      exact hok (j + 1) (by simp only [List.length_cons]; omega) (by omega)
    rw [List.countP_cons, List.countP_eq_length.mpr hall]
    simp only [List.get] at hfail
    simp [hfail]
  | a :: t, i + 1, hi, hfail, hok => by
    have hi2 : i < t.length := by simpa using hi
    have ha : p a = true := hok 0 (by simp only [List.length_cons]; omega) (by omega)
    have ih := countP_of_single_fail p t i hi2 hfail
      (fun j hj hne => hok (j + 1) (by simp only [List.length_cons]; omega) (by omega))
    rw [List.countP_cons, ih]
    simp only [ha, if_pos]
    simp only [List.length_cons]
    omega

/-! ## First-success scan of a batch's outcomes -/

theorem findSome?_first {α β : Type} (f : α → Option β) :
    ∀ (l : List α) (i : Nat) (hi : i < l.length) (b : β),
      f (l.get ⟨i, hi⟩) = some b →
      (∀ j (hj : j < i), f (l.get ⟨j, by omega⟩) = none) →
      l.findSome? f = some b
  | [], i, hi, _, _, _ => absurd hi (by simp)
  | a :: t, 0, _, b, hb, _ => by
    rw [List.findSome?_cons]
    simp only [List.get] at hb
    rw [hb]
  | a :: t, i + 1, hi, b, hb, hprev => by
    have ha : f a = none := hprev 0 (by omega)
    rw [List.findSome?_cons, ha]
    exact findSome?_first f t i (by simpa using hi) b hb
      (fun j hj => hprev (j + 1) (by omega))

/-! ## The turn loop: budget bound and early return -/

theorem runAgentTurnsLoop_zero (agentRegistry : ToolRegistry) (script : Nat → TurnOutcome)
    (isTimeWarning : Nat → Bool) (summaryTurn : TurnOutcome) (task : String) (maxTurns : Nat)
    (idx : Nat) (msg : PartListUnion) :
    runAgentTurnsLoop agentRegistry script isTimeWarning summaryTurn task maxTurns 0 idx msg
      = (.ok (requestAgentSummary agentRegistry summaryTurn task), 0) := rfl

theorem runAgentTurnsLoop_succ (agentRegistry : ToolRegistry) (script : Nat → TurnOutcome)
    (isTimeWarning : Nat → Bool) (summaryTurn : TurnOutcome) (task : String) (maxTurns : Nat)
    (n idx : Nat) (msg : PartListUnion) :
    runAgentTurnsLoop agentRegistry script isTimeWarning summaryTurn task maxTurns
        (n + 1) idx msg
      = (match script idx with
        | .throws e => (.error e, 1)
        | .events modelResponse toolCallRequests =>
          if toolCallRequests.isEmpty then
            let next : PartListUnion :=
              if modelResponse.trim ≠ "" then
                .list [.textPart "Please continue with your task or use the return_from_task tool when finished."]
              else .list [.textPart "Continue with your task."]
            let r := runAgentTurnsLoop agentRegistry script isTimeWarning summaryTurn task
              maxTurns n (idx + 1) next
            (r.1, r.2 + 1)
          else
            let toolResults := processToolCalls agentRegistry toolCallRequests
            match findAgentReturn toolResults with
            | some agentReturn => (.ok agentReturn, 1)
            | none =>
              let next := PartListUnion.list
                (toolResults.foldr (fun r acc => outcomeResponseParts r ++ acc) [])
              let r := runAgentTurnsLoop agentRegistry script isTimeWarning summaryTurn task
                maxTurns n (idx + 1) next
              (r.1, r.2 + 1)) := rfl

theorem runAgentTurnsLoop_count_le (agentRegistry : ToolRegistry) (script : Nat → TurnOutcome)
    (isTimeWarning : Nat → Bool) (summaryTurn : TurnOutcome) (task : String) (maxTurns : Nat) :
    ∀ (n idx : Nat) (msg : PartListUnion),
      (runAgentTurnsLoop agentRegistry script isTimeWarning summaryTurn task maxTurns
        n idx msg).2 ≤ n := by
  intro n
  induction n with
  | zero => intro idx msg; rw [runAgentTurnsLoop_zero]
  | succ n ih =>
    intro idx msg
    rw [runAgentTurnsLoop_succ]
    cases script idx with
    | throws e => simp
    | events mr calls =>
      by_cases hc : calls.isEmpty = true
      · simp only [if_pos hc]
        have := ih (idx + 1) (if mr.trim ≠ "" then
          .list [.textPart "Please continue with your task or use the return_from_task tool when finished."]
          else .list [.textPart "Continue with your task."])
        omega
      · simp only [if_neg hc]
        cases findAgentReturn (processToolCalls agentRegistry calls) with
        | some r => simp
        | none =>
          simp only []
          have := ih (idx + 1) (PartListUnion.list
            ((processToolCalls agentRegistry calls).foldr
              (fun r acc => outcomeResponseParts r ++ acc) []))
          omega

theorem runAgentTurnsLoop_succ_cases (agentRegistry : ToolRegistry) (script : Nat → TurnOutcome)
    (isTimeWarning : Nat → Bool) (summaryTurn : TurnOutcome) (task : String) (maxTurns : Nat)
    (n idx : Nat) (msg : PartListUnion) :
    (∃ e, runAgentTurnsLoop agentRegistry script isTimeWarning summaryTurn task maxTurns
        (n + 1) idx msg = (.error e, 1) ∧ script idx = .throws e)
    ∨ (∃ r, runAgentTurnsLoop agentRegistry script isTimeWarning summaryTurn task maxTurns
        (n + 1) idx msg = (.ok r, 1) ∧ turnSignal agentRegistry (script idx) = some r)
    ∨ (∃ m2, (runAgentTurnsLoop agentRegistry script isTimeWarning summaryTurn task maxTurns
          (n + 1) idx msg).1
        = (runAgentTurnsLoop agentRegistry script isTimeWarning summaryTurn task maxTurns
          n (idx + 1) m2).1
      ∧ (runAgentTurnsLoop agentRegistry script isTimeWarning summaryTurn task maxTurns
          (n + 1) idx msg).2
        = (runAgentTurnsLoop agentRegistry script isTimeWarning summaryTurn task maxTurns
          n (idx + 1) m2).2 + 1
      ∧ turnSignal agentRegistry (script idx) = none) := by
  rw [runAgentTurnsLoop_succ]
  cases hs : script idx with
  | throws e => exact Or.inl ⟨e, rfl, rfl⟩
  | events mr calls =>
    by_cases hc : calls.isEmpty = true
    · refine Or.inr (Or.inr ⟨if mr.trim ≠ "" then
          PartListUnion.list [.textPart "Please continue with your task or use the return_from_task tool when finished."]
          else PartListUnion.list [.textPart "Continue with your task."], ?_, ?_, ?_⟩)
      · simp only [if_pos hc]
      · simp only [if_pos hc]
      · simp [turnSignal, hc]
    · cases hr : findAgentReturn (processToolCalls agentRegistry calls) with
      | some r =>
        refine Or.inr (Or.inl ⟨r, ?_, ?_⟩)
        · simp only [if_neg hc, hr]
        · simp [turnSignal, hc, hr]
      | none =>
        refine Or.inr (Or.inr ⟨PartListUnion.list
            ((processToolCalls agentRegistry calls).foldr
              (fun r acc => outcomeResponseParts r ++ acc) []), ?_, ?_, ?_⟩)
        · simp only [if_neg hc, hr]
        · simp only [if_neg hc, hr]
        · simp [turnSignal, hc, hr]

theorem runAgentTurnsLoop_first_signal (agentRegistry : ToolRegistry)
    (script : Nat → TurnOutcome) (isTimeWarning : Nat → Bool) (summaryTurn : TurnOutcome)
    (task : String) (maxTurns : Nat) :
    ∀ (k n idx : Nat) (msg : PartListUnion) (r : AgentReturnJs),
      k < n →
      (∀ j, j < k → turnSignal agentRegistry (script (idx + j)) = none
        ∧ ∀ e, script (idx + j) ≠ TurnOutcome.throws e) →
      turnSignal agentRegistry (script (idx + k)) = some r →
      runAgentTurnsLoop agentRegistry script isTimeWarning summaryTurn task maxTurns n idx msg
        = (.ok r, k + 1) := by
  intro k
  induction k with
  | zero =>
    intro n idx msg r hk hprev hsig
    obtain ⟨m, rfl⟩ : ∃ m, n = m + 1 := ⟨n - 1, by omega⟩
    rw [Nat.add_zero] at hsig
    rw [runAgentTurnsLoop_succ]
    cases hs : script idx with
    | throws e => rw [hs] at hsig; simp [turnSignal] at hsig
    | events mr calls =>
      rw [hs] at hsig
      simp only [turnSignal] at hsig
      by_cases hc : calls.isEmpty = true
      · rw [if_pos hc] at hsig; simp at hsig
      · rw [if_neg hc] at hsig
        simp only [if_neg hc, hsig]
  | succ k ihk =>
    intro n idx msg r hk hprev hsig
    obtain ⟨m, rfl⟩ : ∃ m, n = m + 1 := ⟨n - 1, by omega⟩
    have h0 := hprev 0 (by omega)
    rw [Nat.add_zero] at h0
    have hprev2 : ∀ j, j < k → turnSignal agentRegistry (script (idx + 1 + j)) = none
        ∧ ∀ e, script (idx + 1 + j) ≠ TurnOutcome.throws e := by
      intro j hj
      have := hprev (j + 1) (by omega)
      rwa [show idx + (j + 1) = idx + 1 + j from by omega] at this
    have hsig2 : turnSignal agentRegistry (script (idx + 1 + k)) = some r := by
      rwa [show idx + (k + 1) = idx + 1 + k from by omega] at hsig
    rw [runAgentTurnsLoop_succ]
    cases hs : script idx with
    | throws e => exact absurd hs (h0.2 e)
    | events mr calls =>
      have hts : turnSignal agentRegistry (TurnOutcome.events mr calls) = none := hs ▸ h0.1
      simp only [turnSignal] at hts
      by_cases hc : calls.isEmpty = true
      · simp only [if_pos hc]
        rw [ihk m (idx + 1) _ r (by omega) hprev2 hsig2]
      · rw [if_neg hc] at hts
        simp only [if_neg hc, hts]
        rw [ihk m (idx + 1) _ r (by omega) hprev2 hsig2]

/-! ## The claims -/

/-- C1: for every AgentTaskRequest, the host-facing entry point
(`handleAgentSpawn`) always resolves to a result record with `isAgent = true`
and a present `AgentReturnSignal`, and never raises (it is a total function);
any uncaught fault anywhere in the run — for example a registry-construction
failure, or a turn fault rethrown by the runner — is caught once at this
outermost boundary and converted into the failure result
`{success: false, description: "Agent failed to execute: <message>",
result: ""}`. -/
theorem agent_session_never_raises (parentRegistry : Except String ToolRegistry)
    (script : Nat → TurnOutcome) (isTimeWarning : Nat → Bool) (summaryTurn : TurnOutcome)
    (timeoutWins : Bool) (request : AgentSpawnRequest) :
    (handleAgentSpawn parentRegistry script isTimeWarning summaryTurn timeoutWins
        request).isAgent = true
    ∧ (handleAgentSpawn parentRegistry script isTimeWarning summaryTurn timeoutWins
        request).result.isSome = true
    ∧ ∀ e, (TaskAgentRunner.run parentRegistry script isTimeWarning summaryTurn timeoutWins
          request.task request.maxTurns).1 = .error e →
        handleAgentSpawn parentRegistry script isTimeWarning summaryTurn timeoutWins request
          = ⟨true, some (AgentReturnJs.ofResult
              ⟨false, "Agent failed to execute: " ++ e, ""⟩)⟩ := by
  cases hrun : (TaskAgentRunner.run parentRegistry script isTimeWarning summaryTurn timeoutWins
      request.task request.maxTurns).1 with
  | ok r =>
    refine ⟨?_, ?_, ?_⟩
    · simp [handleAgentSpawn, hrun]
    · simp [handleAgentSpawn, hrun]
    · intro e he
      simp at he
  | error e0 =>
    refine ⟨?_, ?_, ?_⟩
    · simp [handleAgentSpawn, hrun]
    · simp [handleAgentSpawn, hrun]
    · intro e he
      cases he
      simp [handleAgentSpawn, hrun]

/-- Witness for C1: a registry-construction failure comes back as the
`Agent failed to execute:` failure signal. -/
theorem agent_session_never_raises_witness :
    handleAgentSpawn (.error "Tool registry construction failed")
        (fun _ => .events "" []) (fun _ => false) (.events "" []) false ⟨"t", "p", 1, 1000⟩
      = ⟨true, some (AgentReturnJs.ofResult
          ⟨false, "Agent failed to execute: Tool registry construction failed", ""⟩)⟩ :=
  (agent_session_never_raises (.error "Tool registry construction failed")
    (fun _ => .events "" []) (fun _ => false) (.events "" []) false ⟨"t", "p", 1, 1000⟩).2.2
    "Tool registry construction failed" rfl

/-- C2: for every `maxTurns = N`, the running turn loop executes at most `N`
turn iterations before falling through to the summarization step
(`turnsRemaining`, the loop's fuel, starts at `N` and the iteration count
never exceeds it); at `turnsRemaining = 0` the loop exits into
`requestAgentSummary`; and each iteration either exits with the turn's
thrown fault, exits with the first return signal found in that turn, or
decreases `turnsRemaining` by exactly one — counting exactly one more
iteration — when that turn surfaced no signal. -/
theorem turn_budget_bound (agentRegistry : ToolRegistry) (script : Nat → TurnOutcome)
    (isTimeWarning : Nat → Bool) (summaryTurn : TurnOutcome) (task : String) (maxTurns : Nat) :
    ((runAgentTurns agentRegistry script isTimeWarning summaryTurn task maxTurns).2 ≤ maxTurns)
    ∧ (∀ (n idx : Nat) (msg : PartListUnion),
        (runAgentTurnsLoop agentRegistry script isTimeWarning summaryTurn task maxTurns
          n idx msg).2 ≤ n)
    ∧ (∀ (idx : Nat) (msg : PartListUnion),
        runAgentTurnsLoop agentRegistry script isTimeWarning summaryTurn task maxTurns 0 idx msg
          = (.ok (requestAgentSummary agentRegistry summaryTurn task), 0))
    ∧ (∀ (n idx : Nat) (msg : PartListUnion),
        (∃ e, runAgentTurnsLoop agentRegistry script isTimeWarning summaryTurn task maxTurns
            (n + 1) idx msg = (.error e, 1) ∧ script idx = .throws e)
        ∨ (∃ r, runAgentTurnsLoop agentRegistry script isTimeWarning summaryTurn task maxTurns
            (n + 1) idx msg = (.ok r, 1) ∧ turnSignal agentRegistry (script idx) = some r)
        ∨ (∃ m2, (runAgentTurnsLoop agentRegistry script isTimeWarning summaryTurn task maxTurns
              (n + 1) idx msg).1
            = (runAgentTurnsLoop agentRegistry script isTimeWarning summaryTurn task maxTurns
              n (idx + 1) m2).1
          ∧ (runAgentTurnsLoop agentRegistry script isTimeWarning summaryTurn task maxTurns
              (n + 1) idx msg).2
            = (runAgentTurnsLoop agentRegistry script isTimeWarning summaryTurn task maxTurns
              n (idx + 1) m2).2 + 1
          ∧ turnSignal agentRegistry (script idx) = none)) :=
  ⟨runAgentTurnsLoop_count_le agentRegistry script isTimeWarning summaryTurn task maxTurns
      maxTurns 0 _,
   runAgentTurnsLoop_count_le agentRegistry script isTimeWarning summaryTurn task maxTurns,
   fun idx msg => runAgentTurnsLoop_zero agentRegistry script isTimeWarning summaryTurn task
      maxTurns idx msg,
   fun n idx msg => runAgentTurnsLoop_succ_cases agentRegistry script isTimeWarning summaryTurn
      task maxTurns n idx msg⟩

/-- C3: if a valid return signal appears among the capability-call outcomes
of turn `k` (zero-based `k`, so turn `k+1 ≤ N` one-based) and no earlier
turn surfaced a signal or threw, the session terminates at that turn with
that signal after exactly `k+1` iterations, never consuming a later turn;
and the batch scan takes the first outcome that decodes as a return signal,
never looking at the outcomes after it. -/
theorem early_return_short_circuit (agentRegistry : ToolRegistry) (script : Nat → TurnOutcome)
    (isTimeWarning : Nat → Bool) (summaryTurn : TurnOutcome) (task : String)
    (maxTurns k : Nat) (r : AgentReturnJs)
    (hk : k < maxTurns)
    (hprev : ∀ j, j < k → turnSignal agentRegistry (script j) = none
      ∧ ∀ e, script j ≠ TurnOutcome.throws e)
    (hsig : turnSignal agentRegistry (script k) = some r) :
    runAgentTurns agentRegistry script isTimeWarning summaryTurn task maxTurns = (.ok r, k + 1)
    ∧ ∀ (outs : List ToolCallOutcome) (i : Nat) (hi : i < outs.length) (b : AgentReturnJs),
        outcomeSignal (outs.get ⟨i, hi⟩) = some b →
        (∀ j (hj : j < i), outcomeSignal (outs.get ⟨j, by omega⟩) = none) →
        findAgentReturn outs = some b := by
  constructor
  · rw [runAgentTurns]
    refine runAgentTurnsLoop_first_signal agentRegistry script isTimeWarning summaryTurn task
      maxTurns k maxTurns 0 _ r hk ?_ ?_
    · intro j hj
      simpa using hprev j hj
    · simpa using hsig
  · intro outs i hi b hb hprev2
    exact findSome?_first outcomeSignal outs i hi b hb hprev2

/-- Helper for concrete runs: a batch holding one successful
`return_from_task` outcome scans to exactly that signal. -/
theorem findAgentReturn_single_encode (tc : ToolCallRequestInfo) (disp : String)
    (v : TaskAgentResult) :
    findAgentReturn [⟨tc, some ⟨.list [.textPart (encodeReturnSignal v)], disp⟩, none⟩]
      = some (AgentReturnJs.ofResult v) := by
  have hsig : outcomeSignal ⟨tc, some ⟨.list [.textPart (encodeReturnSignal v)], disp⟩, none⟩
      = some (AgentReturnJs.ofResult v) := by
    simp only [outcomeSignal]
    rw [show (PartListUnion.truthy (.list [.textPart (encodeReturnSignal v)])) = true from rfl,
      if_pos rfl]
    exact checkForAgentReturn_encode v
  rw [findAgentReturn, List.findSome?_cons, hsig]

/-- Witness for C3: with `maxTurns = 1` and a first turn that calls
`return_from_task` with a well-typed result, the session yields exactly that
signal after one turn. -/
theorem early_return_short_circuit_witness :
    runAgentTurns (createAgentToolRegistry [])
        (fun _ => .events "" [⟨"c1", "return_from_task",
          returnToolArgs ⟨true, "done", "42"⟩⟩])
        (fun _ => false) (.events "" []) "t" 1
      = (.ok (AgentReturnJs.ofResult ⟨true, "done", "42"⟩), 1) :=
  (early_return_short_circuit (createAgentToolRegistry [])
    (fun _ => .events "" [⟨"c1", "return_from_task", returnToolArgs ⟨true, "done", "42"⟩⟩])
    (fun _ => false) (.events "" []) "t" 1 0 (AgentReturnJs.ofResult ⟨true, "done", "42"⟩)
    (by omega) (fun j hj => absurd hj (by omega))
    (by
      simp only [turnSignal]
      rw [if_neg (by decide)]
      have hpt : processToolCalls (createAgentToolRegistry [])
          [⟨"c1", "return_from_task", returnToolArgs ⟨true, "done", "42"⟩⟩]
          = [⟨⟨"c1", "return_from_task", returnToolArgs ⟨true, "done", "42"⟩⟩,
              some ⟨.list [.textPart (encodeReturnSignal ⟨true, "done", "42"⟩)],
                "✅ Task completed: done"⟩, none⟩] := rfl
      rw [hpt, findAgentReturn_single_encode])).1

/-- C4: every sub-agent registry derived from a parent registry lacks the
spawn capability (`task_agent` resolves to "absent") and holds the finish
capability (`return_from_task`) exactly once, regardless of the parent
registry's contents. -/
theorem capability_isolation (parentRegistry : ToolRegistry) :
    ToolRegistry.getTool (createAgentToolRegistry parentRegistry) "task_agent" = none
    ∧ ((createAgentToolRegistry parentRegistry).getAllTools.countP
        fun t => t.name == "return_from_task") = 1 := by
  constructor
  · rw [ToolRegistry.getTool, List.find?_eq_none]
    intro u hu
    rcases createAgentToolRegistry_mem hu with h | h
    · simp [h]
    · subst h
      decide
  · show ((createAgentToolRegistry parentRegistry).countP
      fun t => t.name == "return_from_task") = 1
    rw [createAgentToolRegistry, countP_registerTool,
      if_pos (show returnFromTaskTool.name = "return_from_task" from rfl)]

/-- C5 counterexample: the claim fixes the missing-capability error string as
`capability <name> not found`, but the dispatcher produces
`Tool <name> not found` — shown at the concrete request `ghost` against an
empty registry. -/
theorem dispatcher_error_string_cex :
    processToolCalls [] [⟨"id1", "ghost", []⟩]
      = [⟨⟨"id1", "ghost", []⟩, none, some "Tool ghost not found"⟩]
    ∧ some "Tool ghost not found" ≠ some "capability ghost not found" := by
  exact ⟨rfl, by decide⟩

/-- C5 (amended): for every batch of `N` capability-call requests the
dispatcher yields exactly `N` outcomes in request order; a request whose
capability is not in the registry yields the error outcome
`Tool <name> not found` (the amendment: the code's string, not the claimed
`capability <name> not found`) and no invocation occurs; a fault raised by
an invoked capability is caught into that call's error outcome, never
propagating and never blocking siblings: one faulting call among `N`
otherwise-succeeding calls still yields `N` outcomes, `N − 1` of them
error-free. -/
theorem dispatcher_outcomes (agentRegistry : ToolRegistry)
    (toolCalls : List ToolCallRequestInfo) :
    (processToolCalls agentRegistry toolCalls).length = toolCalls.length
    ∧ (∀ i (hi : i < toolCalls.length),
        ((processToolCalls agentRegistry toolCalls).get
            ⟨i, by rw [processToolCalls_length]; exact hi⟩).toolCall = toolCalls.get ⟨i, hi⟩
        ∧ (ToolRegistry.getTool agentRegistry (toolCalls.get ⟨i, hi⟩).name = none →
            (processToolCalls agentRegistry toolCalls).get
                ⟨i, by rw [processToolCalls_length]; exact hi⟩
              = ⟨toolCalls.get ⟨i, hi⟩, none,
                  some ("Tool " ++ (toolCalls.get ⟨i, hi⟩).name ++ " not found")⟩)
        ∧ (∀ tool, ToolRegistry.getTool agentRegistry (toolCalls.get ⟨i, hi⟩).name = some tool →
            (∀ e, tool.execute (toolCalls.get ⟨i, hi⟩).args = .error e →
              (processToolCalls agentRegistry toolCalls).get
                  ⟨i, by rw [processToolCalls_length]; exact hi⟩
                = ⟨toolCalls.get ⟨i, hi⟩, none, some e⟩)
            ∧ (∀ res, tool.execute (toolCalls.get ⟨i, hi⟩).args = .ok res →
              (processToolCalls agentRegistry toolCalls).get
                  ⟨i, by rw [processToolCalls_length]; exact hi⟩
                = ⟨toolCalls.get ⟨i, hi⟩, some res, none⟩)))
    ∧ (∀ i (hi : i < toolCalls.length),
        (∃ tool e, ToolRegistry.getTool agentRegistry (toolCalls.get ⟨i, hi⟩).name = some tool
          ∧ tool.execute (toolCalls.get ⟨i, hi⟩).args = .error e) →
        (∀ j (hj : j < toolCalls.length), j ≠ i →
          ∃ tool res, ToolRegistry.getTool agentRegistry (toolCalls.get ⟨j, hj⟩).name = some tool
            ∧ tool.execute (toolCalls.get ⟨j, hj⟩).args = .ok res) →
        ((processToolCalls agentRegistry toolCalls).countP fun o => o.error.isNone)
          = toolCalls.length - 1) := by
  refine ⟨processToolCalls_length agentRegistry toolCalls, ?_, ?_⟩
  · intro i hi
    refine ⟨?_, ?_, ?_⟩
    · rw [processToolCalls_get agentRegistry toolCalls i hi]
      cases hgt : ToolRegistry.getTool agentRegistry (toolCalls.get ⟨i, hi⟩).name with
      | none => simp only [hgt]
      | some tool =>
        cases hex : tool.execute (toolCalls.get ⟨i, hi⟩).args with
        | ok res => simp only [hgt, hex]
        | error e => simp only [hgt, hex]
    · intro hnone
      rw [processToolCalls_get agentRegistry toolCalls i hi]
      simp only [hnone]
    · intro tool htool
      constructor
      · intro e he
        rw [processToolCalls_get agentRegistry toolCalls i hi]
        simp only [htool, he]
      · intro res hres
        rw [processToolCalls_get agentRegistry toolCalls i hi]
        simp only [htool, hres]
  · intro i hi hfail hok
    have hlen := processToolCalls_length agentRegistry toolCalls
    obtain ⟨tool, e, htool, he⟩ := hfail
    have hi2 : i < (processToolCalls agentRegistry toolCalls).length := by omega
    have hpfail : (fun o : ToolCallOutcome => o.error.isNone)
        ((processToolCalls agentRegistry toolCalls).get ⟨i, hi2⟩) = false := by
      rw [processToolCalls_get agentRegistry toolCalls i hi]
      simp only [htool, he]
      rfl
    have hpok : ∀ j (hj : j < (processToolCalls agentRegistry toolCalls).length), j ≠ i →
        (fun o : ToolCallOutcome => o.error.isNone)
          ((processToolCalls agentRegistry toolCalls).get ⟨j, hj⟩) = true := by
      intro j hj hne
      have hj2 : j < toolCalls.length := by omega
      obtain ⟨tool2, res2, htool2, hres2⟩ := hok j hj2 hne
      rw [processToolCalls_get agentRegistry toolCalls j hj2]
      simp only [htool2, hres2]
      rfl
    rw [countP_of_single_fail _ _ i hi2 hpfail hpok, hlen]

/-- Witness for C5 (amended): three calls, the middle one faulting, still
yield three outcomes, two of them error-free. -/
theorem dispatcher_outcomes_witness :
    (processToolCalls
        [⟨"ok1", fun _ => .ok ⟨.str "fine", "ok"⟩⟩, ⟨"boom", fun _ => .error "boom failed"⟩]
        [⟨"a", "ok1", []⟩, ⟨"b", "boom", []⟩, ⟨"c", "ok1", []⟩]).length = 3
    ∧ ((processToolCalls
        [⟨"ok1", fun _ => .ok ⟨.str "fine", "ok"⟩⟩, ⟨"boom", fun _ => .error "boom failed"⟩]
        [⟨"a", "ok1", []⟩, ⟨"b", "boom", []⟩, ⟨"c", "ok1", []⟩]).countP
          fun o => o.error.isNone) = 2 := by
  refine ⟨(dispatcher_outcomes _ _).1, ?_⟩
  have h := (dispatcher_outcomes
      [⟨"ok1", fun _ => .ok ⟨.str "fine", "ok"⟩⟩, ⟨"boom", fun _ => .error "boom failed"⟩]
      [⟨"a", "ok1", []⟩, ⟨"b", "boom", []⟩, ⟨"c", "ok1", []⟩]).2.2 1 (by decide)
      ⟨⟨"boom", fun _ => .error "boom failed"⟩, "boom failed", rfl, rfl⟩
      ?_
  · exact h
  · intro j hj hne
    have hj3 : j < 3 := by simpa using hj
    interval_cases j
    · exact ⟨⟨"ok1", fun _ => .ok ⟨.str "fine", "ok"⟩⟩, ⟨.str "fine", "ok"⟩, rfl, rfl⟩
    · exact absurd rfl hne
    · exact ⟨⟨"ok1", fun _ => .ok ⟨.str "fine", "ok"⟩⟩, ⟨.str "fine", "ok"⟩, rfl, rfl⟩

/-- Bridging lemma: on a string whose parse yields an object, the return
decoder is the tag dispatch on that object's `type` property. -/
theorem decodeReturnSignalText_of_parse_obj (s : String) (fs : List (String × Jv))
    (hp : Jv.parse s = some (Jv.jobj fs)) :
    decodeReturnSignalText s
      = match Jv.getProp fs "type" with
        | Jv.jstr tag =>
          if tag = "agent_return" then
            some ⟨Jv.getProp fs "success", Jv.getProp fs "description", Jv.getProp fs "result"⟩
          else none
        | _ => none := by
  simp only [decodeReturnSignalText, hp]

/-- Bridging lemma: on a string whose parse yields an object, the spawn
decoder is the tag dispatch on that object's `type` property. -/
theorem decodeSpawnRequestText_of_parse_obj (s : String) (fs : List (String × Jv))
    (hp : Jv.parse s = some (Jv.jobj fs)) :
    decodeSpawnRequestText s
      = match Jv.getProp fs "type" with
        | Jv.jstr tag => if tag = "spawn_agent" then some (Jv.jobj fs) else none
        | _ => none := by
  simp only [decodeSpawnRequestText, hp]

/-- C6: the codec round-trips. The finish capability produces, for a
well-typed result `v`, exactly the single-text-part payload carrying
`encodeReturnSignal v`, and decoding that payload yields `v` again (as
`AgentReturnJs.ofResult v`, and `ofResult` is injective, so `v` is fully
recovered); likewise the `task_agent` tool produces for a request `r` with
both limits given exactly the marker `encodeSpawnRequest r`, which decodes
to `r`'s parsed object `AgentSpawnRequest.toJv r`, and `toJv` is
injective. -/
theorem codec_roundtrip :
    (∀ v : TaskAgentResult,
        checkForAgentReturn (.list [.textPart (encodeReturnSignal v)])
          = some (AgentReturnJs.ofResult v)
        ∧ ∃ display, returnFromTaskTool.execute (returnToolArgs v)
            = .ok ⟨.list [.textPart (encodeReturnSignal v)], display⟩)
    ∧ (∀ v w : TaskAgentResult, AgentReturnJs.ofResult v = AgentReturnJs.ofResult w → v = w)
    ∧ (∀ (r : AgentSpawnRequest) (cid : String) (rd er : Option String),
        isAgentSpawnRequest ⟨cid, some (.list [.textPart (encodeSpawnRequest r)]), rd, er⟩
          = some (AgentSpawnRequest.toJv r)
        ∧ ∃ display, taskAgentTool.execute
            [("task", Jv.jstr r.task), ("prompt", Jv.jstr r.prompt),
              ("maxTurns", Jv.jnum r.maxTurns), ("timeoutMs", Jv.jnum r.timeoutMs)]
            = .ok ⟨.list [.textPart (encodeSpawnRequest r)], display⟩)
    ∧ (∀ r q : AgentSpawnRequest, AgentSpawnRequest.toJv r = AgentSpawnRequest.toJv q → r = q) := by
  refine ⟨?_, ?_, ?_, ?_⟩
  · intro v
    exact ⟨checkForAgentReturn_encode v, _, rfl⟩
  · intro v w h
    cases v; cases w
    simpa [AgentReturnJs.ofResult] using h
  · intro r cid rd er
    exact ⟨isAgentSpawnRequest_encode r cid rd er, _, rfl⟩
  · intro r q h
    cases r; cases q
    simp only [AgentSpawnRequest.toJv, Jv.jobj.injEq, List.cons.injEq, Prod.mk.injEq,
      Jv.jstr.injEq, Jv.jnum.injEq, and_true, true_and] at h
    obtain ⟨h1, h2, h3, h4⟩ := h
    simp only [AgentSpawnRequest.mk.injEq]
    exact ⟨h1, h2, by exact_mod_cast h3, by exact_mod_cast h4⟩

/-- Witness for C6: the round trip at a concrete signal and a concrete
request, and injectivity instantiated there. -/
theorem codec_roundtrip_witness :
    checkForAgentReturn (.list [.textPart (encodeReturnSignal ⟨true, "ok", "r"⟩)])
      = some (AgentReturnJs.ofResult ⟨true, "ok", "r"⟩)
    ∧ (⟨true, "ok", "r"⟩ : TaskAgentResult) = ⟨true, "ok", "r"⟩
    ∧ isAgentSpawnRequest
        ⟨"cid", some (.list [.textPart (encodeSpawnRequest ⟨"t", "p", 2, 5⟩)]), none, none⟩
      = some (AgentSpawnRequest.toJv ⟨"t", "p", 2, 5⟩)
    ∧ (⟨"t", "p", 2, 5⟩ : AgentSpawnRequest) = ⟨"t", "p", 2, 5⟩ :=
  ⟨(codec_roundtrip.1 ⟨true, "ok", "r"⟩).1,
   codec_roundtrip.2.1 ⟨true, "ok", "r"⟩ ⟨true, "ok", "r"⟩ rfl,
   (codec_roundtrip.2.2.1 ⟨"t", "p", 2, 5⟩ "cid" none none).1,
   codec_roundtrip.2.2.2 ⟨"t", "p", 2, 5⟩ ⟨"t", "p", 2, 5⟩ rfl⟩

/-- C7 counterexample: the claim says every string outside the encoder's
image decodes to "absent". The 23-character string
`\x7b"type":"agent_return"\x7d` is outside the image — every encoded
return payload is at least 24 characters long — yet the return decoder
does not yield "absent" on it: only the tag is checked, the shape is not,
and it decodes to a degenerate record whose three fields are all
`undefined`. -/
theorem decoder_tolerance_cex :
    (∀ v : TaskAgentResult, encodeReturnSignal v ≠ "\x7b\"type\":\"agent_return\"\x7d")
    ∧ decodeReturnSignalText "\x7b\"type\":\"agent_return\"\x7d"
        = some ⟨Jv.jundef, Jv.jundef, Jv.jundef⟩
    ∧ some (⟨Jv.jundef, Jv.jundef, Jv.jundef⟩ : AgentReturnJs) ≠ none := by
  refine ⟨?_, rfl, fun h => Option.noConfusion h⟩
  intro v h
  have h24 := encodeReturnSignal_data_length v
  rw [h] at h24
  exact absurd h24 (by decide)

/-- C7 (amended): both decoders are total functions that never raise, and
they yield "absent" on every string that fails to parse as JSON and on
every string whose parsed value is not an object carrying the string tag
`agent_return` (resp. `spawn_agent`) under the `type` key. (A parsed
object that does carry the right tag is accepted with no further shape
validation — the behavior the counterexample exhibits.) -/
theorem decoder_tolerance (s : String) :
    (Jv.parse s = none →
      decodeReturnSignalText s = none ∧ decodeSpawnRequestText s = none)
    ∧ (∀ j, Jv.parse s = some j →
        (∀ fs, j = Jv.jobj fs → Jv.getProp fs "type" ≠ Jv.jstr "agent_return") →
        decodeReturnSignalText s = none)
    ∧ (∀ j, Jv.parse s = some j →
        (∀ fs, j = Jv.jobj fs → Jv.getProp fs "type" ≠ Jv.jstr "spawn_agent") →
        decodeSpawnRequestText s = none) := by
  refine ⟨?_, ?_, ?_⟩
  · intro hp
    exact ⟨by simp only [decodeReturnSignalText, hp],
      by simp only [decodeSpawnRequestText, hp]⟩
  · intro j hp htag
    cases j with
    | jobj fs =>
      rw [decodeReturnSignalText_of_parse_obj s fs hp]
      have hne := htag fs rfl
      cases hgp : Jv.getProp fs "type" with
      | jstr tag =>
        by_cases ht : tag = "agent_return"
        · exact absurd (hgp.trans (by rw [ht])) hne
        · simp [ht]
      | jundef => rfl
      | jnull => rfl
      | jbool b => rfl
      | jnum n => rfl
      | jarr xs => rfl
      | jobj gs => rfl
    | jundef => simp only [decodeReturnSignalText, hp]
    | jnull => simp only [decodeReturnSignalText, hp]
    | jbool b => simp only [decodeReturnSignalText, hp]
    | jnum n => simp only [decodeReturnSignalText, hp]
    | jstr t => simp only [decodeReturnSignalText, hp]
    | jarr xs => simp only [decodeReturnSignalText, hp]
  · intro j hp htag
    cases j with
    | jobj fs =>
      rw [decodeSpawnRequestText_of_parse_obj s fs hp]
      have hne := htag fs rfl
      cases hgp : Jv.getProp fs "type" with
      | jstr tag =>
        by_cases ht : tag = "spawn_agent"
        · exact absurd (hgp.trans (by rw [ht])) hne
        · simp [ht]
      | jundef => rfl
      | jnull => rfl
      | jbool b => rfl
      | jnum n => rfl
      | jarr xs => rfl
      | jobj gs => rfl
    | jundef => simp only [decodeSpawnRequestText, hp]
    | jnull => simp only [decodeSpawnRequestText, hp]
    | jbool b => simp only [decodeSpawnRequestText, hp]
    | jnum n => simp only [decodeSpawnRequestText, hp]
    | jstr t => simp only [decodeSpawnRequestText, hp]
    | jarr xs => simp only [decodeSpawnRequestText, hp]

/-- Witness for C7 (amended): an unparsable string decodes to "absent" in
both decoders. -/
theorem decoder_tolerance_witness :
    decodeReturnSignalText "hello" = none ∧ decodeSpawnRequestText "hello" = none :=
  (decoder_tolerance "hello").1 rfl

/-- C8: a session with `maxTurns = 1` whose single turn issues no
capability calls, and whose summarization turn yields no return signal (it
throws, or it issues no calls, or its dispatched outcomes carry no
signal), yields exactly the fixed default failure result
`success: false`, `description: "Agent failed to complete task within time
limit and did not provide a summary."`, `result: ""`. -/
theorem default_failure_determinism (parent : ToolRegistry) (script : Nat → TurnOutcome)
    (isTimeWarning : Nat → Bool) (summaryTurn : TurnOutcome) (task txt : String)
    (hscript : script 0 = TurnOutcome.events txt [])
    (hsummary : ∀ t calls, summaryTurn = TurnOutcome.events t calls →
      calls.isEmpty = false →
      findAgentReturn (processToolCalls (createAgentToolRegistry parent) calls) = none) :
    (TaskAgentRunner.run (.ok parent) script isTimeWarning summaryTurn false task 1).1
      = .ok ⟨Jv.jbool false,
          Jv.jstr "Agent failed to complete task within time limit and did not provide a summary.",
          Jv.jstr ""⟩ := by
  have hsum : requestAgentSummary (createAgentToolRegistry parent) summaryTurn task
      = summaryFailureResult := by
    cases summaryTurn with
    | throws m => rfl
    | events t calls =>
      simp only [requestAgentSummary]
      cases hemp : calls.isEmpty with
      | true => simp
      | false => simp [hsummary t calls rfl hemp]
  have hloop : runAgentTurnsLoop (createAgentToolRegistry parent) script isTimeWarning
      summaryTurn task 1 1 0 (.list [.textPart ("Begin working on your task: " ++ task)])
      = (.ok summaryFailureResult, 1) := by
    rw [runAgentTurnsLoop_succ, hscript]
    simp [runAgentTurnsLoop_zero, hsum]
  simp only [TaskAgentRunner.run, runAgentTurns]
  rw [hloop]
  rfl

/-- Witness for C8: a concrete one-turn session whose turn issues no calls
and whose summarization turn throws yields the fixed default failure. -/
theorem default_failure_determinism_witness :
    (TaskAgentRunner.run (.ok []) (fun _ => TurnOutcome.events "" []) (fun _ => false)
        (TurnOutcome.throws "boom") false "t" 1).1
      = .ok ⟨Jv.jbool false,
          Jv.jstr "Agent failed to complete task within time limit and did not provide a summary.",
          Jv.jstr ""⟩ :=
  default_failure_determinism [] (fun _ => TurnOutcome.events "" []) (fun _ => false)
    (TurnOutcome.throws "boom") "t" "" rfl (fun _ _ h => nomatch h)

/-- C9: formatting a present result for the primary conversation yields a
single model text part following the fixed template: it contains the task
label, the success flag, and the description, and when `result` is empty
the message is exactly the template ending at the summary's trailing
newline — the result section is entirely absent — while a non-empty
`result` appends exactly the trailing section `"\nResult:\n" ++ result`. -/
theorem format_result_template (task : String) (v : TaskAgentResult) :
    ∃ msg : String,
      formatAgentResult task (some v) = { role := "model", parts := [JsPart.textPart msg] }
      ∧ task.data <:+: msg.data
      ∧ (if v.success then "true" else "false").data <:+: msg.data
      ∧ v.description.data <:+: msg.data
      ∧ (v.result = "" →
          msg = "Task Agent completed task: \"" ++ task ++ "\"\nSuccess: "
            ++ (if v.success then "true" else "false")
            ++ "\nSummary: " ++ v.description ++ "\n")
      ∧ (v.result ≠ "" →
          msg = "Task Agent completed task: \"" ++ task ++ "\"\nSuccess: "
            ++ (if v.success then "true" else "false")
            ++ "\nSummary: " ++ v.description ++ "\n" ++ ("\nResult:\n" ++ v.result)) := by
  refine ⟨"Task Agent completed task: \"" ++ task ++ "\"\nSuccess: "
      ++ (if v.success then "true" else "false")
      ++ "\nSummary: " ++ v.description ++ "\n"
      ++ (if v.result ≠ "" then "\nResult:\n" ++ v.result else ""),
    rfl, ?_, ?_, ?_, ?_, ?_⟩
  · exact ⟨("Task Agent completed task: \"" : String).data,
      ("\"\nSuccess: " : String).data ++ (if v.success then "true" else "false").data
        ++ ("\nSummary: " : String).data ++ v.description.data ++ ("\n" : String).data
        ++ (if v.result ≠ "" then "\nResult:\n" ++ v.result else "").data,
      by simp [String.data_append]⟩
  · exact ⟨("Task Agent completed task: \"" : String).data ++ task.data
        ++ ("\"\nSuccess: " : String).data,
      ("\nSummary: " : String).data ++ v.description.data ++ ("\n" : String).data
        ++ (if v.result ≠ "" then "\nResult:\n" ++ v.result else "").data,
      by simp [String.data_append]⟩
  · exact ⟨("Task Agent completed task: \"" : String).data ++ task.data
        ++ ("\"\nSuccess: " : String).data ++ (if v.success then "true" else "false").data
        ++ ("\nSummary: " : String).data,
      ("\n" : String).data ++ (if v.result ≠ "" then "\nResult:\n" ++ v.result else "").data,
      by simp [String.data_append]⟩
  · intro h
    have hcond : ¬(v.result ≠ "") := fun hc => hc h
    rw [if_neg hcond]
    exact String.append_empty _
  · intro h
    rw [if_pos h]

/-- Witness for C9: the template instantiated at a concrete task and a
concrete empty-result signal — the result section is absent. -/
theorem format_result_template_witness :
    formatAgentResult "t" (some ⟨true, "d", ""⟩)
      = { role := "model", parts := [JsPart.textPart
          "Task Agent completed task: \"t\"\nSuccess: true\nSummary: d\n"] } := by
  obtain ⟨msg, hmsg, -, -, -, hempty, -⟩ := format_result_template "t" ⟨true, "d", ""⟩
  rw [hmsg, hempty rfl]
  rfl

/-- C10: both control-message decoders inspect only the first part of a
multi-part payload: the return decoder's and spawn decoder's verdicts on a
part list depend only on its head, a head carrying no text (a data part)
makes the verdict "absent" even when a validly encoded control message
sits in a later part, and a first-part text that is not a control message
likewise hides a validly encoded message in a later part. -/
theorem decoders_first_part_only :
    (∀ (p : JsPart) (ps : List JsPart),
        checkForAgentReturn (.list (p :: ps)) = checkForAgentReturn (.list [p]))
    ∧ (∀ (cid : String) (rd er : Option String) (p : JsPart) (ps : List JsPart),
        isAgentSpawnRequest ⟨cid, some (.list (p :: ps)), rd, er⟩
          = isAgentSpawnRequest ⟨cid, some (.list [p]), rd, er⟩)
    ∧ (∀ (later : List JsPart) (v : TaskAgentResult),
        checkForAgentReturn
          (.list (JsPart.dataPart :: JsPart.textPart (encodeReturnSignal v) :: later)) = none)
    ∧ (∀ (t : String) (later : List JsPart) (v : TaskAgentResult),
        decodeReturnSignalText t = none →
        checkForAgentReturn
          (.list (JsPart.textPart t :: JsPart.textPart (encodeReturnSignal v) :: later)) = none)
    ∧ (∀ (cid : String) (rd er : Option String) (later : List JsPart) (r : AgentSpawnRequest),
        isAgentSpawnRequest
          ⟨cid, some (.list (JsPart.dataPart :: JsPart.textPart (encodeSpawnRequest r) :: later)),
            rd, er⟩ = none) := by
  refine ⟨?_, ?_, ?_, ?_, ?_⟩
  · intro p ps
    cases p <;> rfl
  · intro cid rd er p ps
    cases p <;> rfl
  · intro later v
    rfl
  · intro t later v hd
    by_cases ht : t = ""
    · simp [checkForAgentReturn, ht]
    · simp [checkForAgentReturn, ht, hd]
  · intro cid rd er later r
    rfl

/-- Witness for C10: a payload whose first part is not a text part, and
one whose first-part text is not a control message, both hide a validly
encoded return signal sitting in the second part. -/
theorem decoders_first_part_only_witness :
    checkForAgentReturn
        (.list [JsPart.dataPart, JsPart.textPart (encodeReturnSignal ⟨true, "d", "r"⟩)]) = none
    ∧ decodeReturnSignalText "nope" = none
    ∧ checkForAgentReturn
        (.list [JsPart.textPart "nope",
          JsPart.textPart (encodeReturnSignal ⟨true, "d", "r"⟩)]) = none :=
  ⟨decoders_first_part_only.2.2.1 [] ⟨true, "d", "r"⟩, rfl,
   decoders_first_part_only.2.2.2.1 "nope" [] ⟨true, "d", "r"⟩ rfl⟩
